import Mathlib

/-!
Verification of the auto-fit card layout engine in
`bear-index-cards-bulk-avery-scale-title.py`.

The Python source is shallowly embedded: strings are `List Char`, Python
floats are modelled as exact rationals `ℚ`, Python `int()` truncation is
`pyInt`, list slicing `l[:k]` is `pySlice`, and `textwrap.wrap` (with its
default options, as the source calls it) is `wrap`.  Fallible Python code
(a `raise`) is modelled with `Except`.

Rational arithmetic is written with the kernel-reducible primitives
`Rat.divInt` / `mkRat` (as `qdiv`, `qmul`, `qadd`, `qsub`, `qnat`) so that
concrete runs of the engine evaluate inside the kernel; the bridge lemmas
`qdiv_eq`, `qmul_eq`, `qadd_eq`, `qsub_eq`, `qnat_eq` identify them with
the field operations of `ℚ`.
-/

/-- Kernel-reducible division on `ℚ` (equals `a / b`, see `qdiv_eq`). -/
def qdiv (a b : ℚ) : ℚ := Rat.divInt (a.num * b.den) (a.den * b.num)

/-- Kernel-reducible multiplication on `ℚ` (equals `a * b`, see `qmul_eq`). -/
def qmul (a b : ℚ) : ℚ := Rat.divInt (a.num * b.num) (a.den * b.den)

/-- Kernel-reducible addition on `ℚ` (equals `a + b`, see `qadd_eq`). -/
def qadd (a b : ℚ) : ℚ := Rat.divInt (a.num * b.den + b.num * a.den) (a.den * b.den)

/-- Kernel-reducible subtraction on `ℚ` (equals `a - b`, see `qsub_eq`). -/
def qsub (a b : ℚ) : ℚ := Rat.divInt (a.num * b.den - b.num * a.den) (a.den * b.den)

/-- Kernel-reducible embedding of `ℕ` into `ℚ`. -/
def qnat (n : ℕ) : ℚ := Rat.divInt (Int.ofNat n) 1

/-- Python `int(q)`: truncation of a rational toward zero. -/
def pyInt (q : ℚ) : ℤ := q.num.tdiv q.den

/-- Python list slicing `l[:k]`, including the negative-index convention
(`l[:k]` with `k < 0` keeps all but the last `-k` elements). -/
def pySlice (l : List α) (k : ℤ) : List α :=
  if 0 ≤ k then l.take k.toNat else l.take ((l.length : ℤ) + k).toNat

/-- The ASCII whitespace characters of Python's `textwrap` machinery
(`string.whitespace`; the regex class `\s` on these texts).  Texts are
modelled over this whitespace set; astral Unicode whitespace variants are
outside the model. -/
def isPyWsChar (c : Char) : Bool :=
  c == ' ' || c == '\t' || c == '\n' || c == '\x0b' || c == '\x0c' || c == '\r'

/-- A chunk of `textwrap`'s wrapping loop: a maximal run of whitespace or
of non-whitespace characters. -/
abbrev Chunk := List Char

/-- A chunk consisting only of whitespace (Python `chunk.strip() == ''`;
true for the empty chunk, as in Python). -/
def isWsChunk (c : Chunk) : Bool := c.all isPyWsChar

/-- Python `str.expandtabs()` with the default tab size 8: each tab
advances the column to the next multiple of 8; newlines reset the column. -/
def expandtabsGo : List Char → ℕ → List Char
  | [], _ => []
  | c :: cs, col =>
    if c = '\t' then
      List.replicate (8 - col % 8) ' ' ++ expandtabsGo cs (col + (8 - col % 8))
    else if c = '\n' ∨ c = '\r' then c :: expandtabsGo cs 0
    else c :: expandtabsGo cs (col + 1)

/-- `TextWrapper._munge_whitespace` with the default options
(`expand_tabs=True`, `replace_whitespace=True`): expand tabs, then replace
each remaining whitespace character by a space. -/
def munge (text : List Char) : List Char :=
  (expandtabsGo text 0).map (fun c =>
    if c = '\t' ∨ c = '\n' ∨ c = '\x0b' ∨ c = '\x0c' ∨ c = '\r' then ' ' else c)

/-- `\w` of `textwrap.wordsep_re`, at ASCII scope (the AFM width tables
and these character classes model the ASCII range; the scanner treats
non-ASCII letters as non-word characters). -/
def wChar (c : Char) : Bool := c.isAlpha || c.isDigit || c == '_'

/-- `[^\d\W]` of `wordsep_re`: a word character that is not a digit
(letters and underscore), ASCII scope. -/
def ltChar (c : Char) : Bool := c.isAlpha || c == '_'

/-- `word_punct = [\w!"\x27&.,?]` of `wordsep_re`. -/
def wpChar (c : Char) : Bool :=
  wChar c || c == '!' || c == '"' || c == '\'' || c == '&' || c == '.' ||
    c == ',' || c == '?'

/-- Length of the leading run of hyphens. -/
def hyphenRun : List Char → ℕ
  | [] => 0
  | c :: rest => if c = '-' then hyphenRun rest + 1 else 0

/-- The lookahead `-{2,}\w` of `wordsep_re`'s em-dash rules: two or more
hyphens followed by a word character.  (Only the full hyphen run can
satisfy the `(?=\w)`, since every shorter prefix is followed by another
hyphen.) -/
def emDashAhead (rem : List Char) : Bool :=
  decide (2 ≤ hyphenRun rem) &&
    (match rem.drop (hyphenRun rem) with
     | c :: _ => wChar c
     | [] => false)

/-- The lookahead `(?= LT -? LT)` of `wordsep_re`'s hyphenated-word rule,
applied to the text after the consumed hyphen. -/
def hyphLookahead : List Char → Bool
  | a :: b :: rest =>
    ltChar a &&
      (if b = '-' then
        (match rest with
         | c :: _ => ltChar c
         | [] => false)
      else ltChar b)
  | _ => false

/-- The lookbehinds `(?<=LT{2}-)` / `(?<=LT-LT-)` of `wordsep_re`'s
hyphenated-word rule, checked on the reversed list of all characters
consumed so far (ending with the just-consumed hyphen); the lookbehind
may reach characters before the current match. -/
def hyphBehind : List Char → Bool
  | '-' :: b :: a :: rest =>
    (ltChar b && ltChar a) ||
      (ltChar b && a == '-' &&
        (match rest with
         | l :: _ => ltChar l
         | [] => false))
  | _ => false

/-- The lazy word alternative `NWS+? (?: -(..)(?=..) | (?=WS|\Z) |
(?<=WP)(?=-{2,}\w) )` of `wordsep_re`: grow the word one character at a
time, stopping at the first position where a terminator fires (hyphenated
break, end of word, or em-dash ahead, in that order).  `coreRev` is the
reversed word so far, `ctxRev` the reversed consumed text (for the
lookbehinds).  Returns (word token, remaining text). -/
def wordGrow : ℕ → List Char → List Char → List Char → List Char × List Char
  | 0, coreRev, _, rem => (coreRev.reverse, rem)
  | fuel + 1, coreRev, ctxRev, rem =>
    match rem with
    | [] => (coreRev.reverse, [])
    | c :: rem1 =>
      if isPyWsChar c then (coreRev.reverse, c :: rem1)
      else if c == '-' && hyphBehind ('-' :: ctxRev) && hyphLookahead rem1 then
        (coreRev.reverse ++ ['-'], rem1)
      else if (match ctxRev with
               | p :: _ => wpChar p
               | [] => false) && emDashAhead (c :: rem1) then
        (coreRev.reverse, c :: rem1)
      else wordGrow fuel (c :: coreRev) (c :: ctxRev) rem1

/-- One token of `wordsep_re` scanning per step, with the alternatives in
the regex's order: a maximal whitespace run, an em-dash separator
`(?<=WP)-{2,}(?=\w)`, or a word via `wordGrow`.  One fuel unit per token
(each token consumes at least one character). -/
def pySplitGo : ℕ → List Char → List Char → List Chunk
  | 0, _, _ => []
  | _ + 1, _, [] => []
  | fuel + 1, ctxRev, c :: rest =>
    if isPyWsChar c then
      let tok := (c :: rest).takeWhile isPyWsChar
      tok :: pySplitGo fuel (tok.reverse ++ ctxRev) ((c :: rest).dropWhile isPyWsChar)
    else if c == '-' &&
        (match ctxRev with
         | p :: _ => wpChar p
         | [] => false) && emDashAhead (c :: rest) then
      let tok := (c :: rest).take (hyphenRun (c :: rest))
      tok :: pySplitGo fuel (tok.reverse ++ ctxRev)
        ((c :: rest).drop (hyphenRun (c :: rest)))
    else
      let p := wordGrow (rest.length + 1) [c] (c :: ctxRev) rest
      p.1 :: pySplitGo fuel (p.1.reverse ++ ctxRev) p.2

/-- `TextWrapper._split` with the default `break_on_hyphens=True`: scan
the text with `wordsep_re`, producing maximal whitespace runs, em-dash
separators, and words split after compound-word hyphens (validated
differentially against CPython `textwrap`). -/
def splitChunks (text : List Char) : List Chunk :=
  pySplitGo (text.length + 1) [] text

/-- The inner while-loop of `TextWrapper._wrap_chunks`: greedily move
chunks into the current line while the accumulated length stays within
`width`.  Returns (moved chunks, remaining chunks). -/
def greedySplit (width curLen : ℕ) : List Chunk → List Chunk × List Chunk
  | [] => ([], [])
  | c :: cs =>
    if curLen + c.length ≤ width then
      let p := greedySplit width (curLen + c.length) cs
      (c :: p.1, p.2)
    else ([], c :: cs)

/-- Drop the final chunk of the current line when it is pure whitespace
(`drop_whitespace=True`, applied once, as in `_wrap_chunks`). -/
def dropTrailingWsChunk : List Chunk → List Chunk
  | [] => []
  | [c] => if isWsChunk c then [] else [c]
  | c :: cs => c :: dropTrailingWsChunk cs

/-- Fuel bound for the outer loop of `_wrap_chunks`: every iteration
either consumes a character or removes a chunk. -/
def chunkMeasure (l : List Chunk) : ℕ := (l.map List.length).sum + l.length

/-- `str.rfind('-', 0, stop)` restricted to hyphens: the greatest index
below `stop` holding a hyphen, if any. -/
def rfindHyphenGo : List Char → ℕ → Option ℕ → Option ℕ
  | [], _, acc => acc
  | c :: rest, i, acc => rfindHyphenGo rest (i + 1) (if c = '-' then some i else acc)

def rfindHyphen (l : List Char) (stop : ℕ) : Option ℕ :=
  rfindHyphenGo (l.take stop) 0 none

/-- The cut position of `_handle_long_word` with the defaults
(`break_long_words=True`, `break_on_hyphens=True`): prefer breaking after
the last hyphen before `spaceLeft`, provided some non-hyphen precedes it;
otherwise cut at `spaceLeft` exactly. -/
def breakEnd (chunk : List Char) (spaceLeft : ℕ) : ℕ :=
  if spaceLeft < chunk.length then
    match rfindHyphen chunk spaceLeft with
    | some h =>
      if 0 < h then
        if (chunk.take h).any (fun c => c != '-') then h + 1 else spaceLeft
      else spaceLeft
    | none => spaceLeft
  else spaceLeft

/-- The outer while-loop of `TextWrapper._wrap_chunks` with the default
options (`initial_indent = subsequent_indent = ''`, `drop_whitespace`,
`break_long_words`, `break_on_hyphens`, `max_lines=None`).  One fuel unit
is spent per iteration; `wrap` supplies enough fuel for the loop to run
to completion (each iteration strictly decreases `chunkMeasure`). -/
def wrapGo : ℕ → ℕ → Bool → List Chunk → List Chunk
  | 0, _, _, _ => []
  | _, _, _, [] => []
  | fuel + 1, width, linesNE, c :: cs =>
    let work := if linesNE && isWsChunk c then cs else c :: cs
    let ps := greedySplit width 0 work
    let curLen := (ps.1.map List.length).sum
    let step : List Chunk × List Chunk :=
      match ps.2 with
      | r :: rs =>
        if width < r.length then
          let spaceLeft := if width < 1 then 1 else width - curLen
          let e := breakEnd r spaceLeft
          (ps.1 ++ [r.take e], (r.drop e) :: rs)
        else (ps.1, r :: rs)
      | [] => (ps.1, [])
    let cur := dropTrailingWsChunk step.1
    if cur.isEmpty then wrapGo fuel width linesNE step.2
    else cur.flatten :: wrapGo fuel width true step.2

/-- Python `textwrap.wrap(text, width=width)` with the default options, as
called by `auto_scale_text`.  Raises `ValueError` when `width <= 0`
(modelled as `Except.error`), exactly as CPython's `_wrap_chunks` does. -/
def wrap (text : List Char) (width : ℤ) : Except String (List Chunk) :=
  if width ≤ 0 then Except.error "ValueError: invalid width (must be > 0)"
  else
    let chunks := splitChunks (munge text)
    Except.ok (wrapGo (chunkMeasure chunks + 1) width.toNat false chunks)

deriving instance DecidableEq for Except

/-! ### Geometry and font constants (source lines 14-40) -/

/-- One inch in points (`reportlab.lib.pagesizes.inch`). -/
def inch : ℚ := 72

/-- `CARD_WIDTH = 5 * inch`. -/
def CARD_WIDTH : ℚ := qmul 5 inch

/-- `CARD_HEIGHT = 3 * inch`. -/
def CARD_HEIGHT : ℚ := qmul 3 inch

/-- `CARD_MARGIN = 12` (points). -/
def CARD_MARGIN : ℚ := 12

/-- `CONTENT_WIDTH = CARD_WIDTH - 2*CARD_MARGIN` (= 336). -/
def CONTENT_WIDTH : ℚ := qsub CARD_WIDTH (qmul 2 CARD_MARGIN)

/-- `CONTENT_HEIGHT = CARD_HEIGHT - 2*CARD_MARGIN` (= 192). -/
def CONTENT_HEIGHT : ℚ := qsub CARD_HEIGHT (qmul 2 CARD_MARGIN)

/-- `MIN_FONT_SIZE = 6`. -/
def MIN_FONT_SIZE : ℚ := 6

/-- `MAX_TITLE_SIZE = 12`. -/
def MAX_TITLE_SIZE : ℚ := 12

/-- `MAX_BODY_SIZE = 10`. -/
def MAX_BODY_SIZE : ℚ := 10

/-- `LINE_SPACING = 1.2`. -/
def LINE_SPACING : ℚ := mkRat 6 5

/-- `FOOTER_HEIGHT = 36`. -/
def FOOTER_HEIGHT : ℚ := 36

/-- `PAGE_COL_WIDTH = 48`. -/
def PAGE_COL_WIDTH : ℚ := 48

/-- `MAX_FOOTER_FONT_SIZE = 8`. -/
def MAX_FOOTER_FONT_SIZE : ℚ := 8

/-- `MIN_FOOTER_FONT_SIZE = 6`. -/
def MIN_FOOTER_FONT_SIZE : ℚ := 6

/-! ### Font metrics (external provider modelled by its width tables)

`pdfmetrics.stringWidth(text, font, size)` for the built-in Type1 fonts
returns `(sum of per-character AFM widths) / 1000 * size`.  The two width
tables below are the printable-ASCII portions of the Adobe Core-14 AFM
tables for Helvetica (`BODY_FONT_NAME`) and Helvetica-Bold
(`TITLE_FONT_NAME`); characters outside the table default to 556
(the tables cover every character used in concrete statements below). -/

def helveticaWidth : Char → ℕ
  | ' ' => 278
  | '!' => 278
  | '\x22' => 355
  | '#' => 556
  | '$' => 556
  | '%' => 889
  | '&' => 667
  | '\'' => 191
  | '(' => 333
  | ')' => 333
  | '*' => 389
  | '+' => 584
  | ',' => 278
  | '-' => 333
  | '.' => 278
  | '/' => 278
  | '0' => 556
  | '1' => 556
  | '2' => 556
  | '3' => 556
  | '4' => 556
  | '5' => 556
  | '6' => 556
  | '7' => 556
  | '8' => 556
  | '9' => 556
  | ':' => 278
  | ';' => 278
  | '<' => 584
  | '=' => 584
  | '>' => 584
  | '?' => 556
  | '@' => 1015
  | 'A' => 667
  | 'B' => 667
  | 'C' => 722
  | 'D' => 722
  | 'E' => 667
  | 'F' => 611
  | 'G' => 778
  | 'H' => 722
  | 'I' => 278
  | 'J' => 500
  | 'K' => 667
  | 'L' => 556
  | 'M' => 833
  | 'N' => 722
  | 'O' => 778
  | 'P' => 667
  | 'Q' => 778
  | 'R' => 722
  | 'S' => 667
  | 'T' => 611
  | 'U' => 722
  | 'V' => 667
  | 'W' => 944
  | 'X' => 667
  | 'Y' => 667
  | 'Z' => 611
  | '[' => 278
  | '\\' => 278
  | ']' => 278
  | '^' => 469
  | '_' => 556
  | '\x60' => 333
  | 'a' => 556
  | 'b' => 556
  | 'c' => 500
  | 'd' => 556
  | 'e' => 556
  | 'f' => 278
  | 'g' => 556
  | 'h' => 556
  | 'i' => 222
  | 'j' => 222
  | 'k' => 500
  | 'l' => 222
  | 'm' => 833
  | 'n' => 556
  | 'o' => 556
  | 'p' => 556
  | 'q' => 556
  | 'r' => 333
  | 's' => 500
  | 't' => 278
  | 'u' => 556
  | 'v' => 500
  | 'w' => 722
  | 'x' => 500
  | 'y' => 500
  | 'z' => 500
  | '\x7b' => 334
  | '|' => 260
  | '\x7d' => 334
  | '~' => 584
  | _ => 556

def helveticaBoldWidth : Char → ℕ
  | ' ' => 278
  | '!' => 333
  | '\x22' => 474
  | '#' => 556
  | '$' => 556
  | '%' => 889
  | '&' => 722
  | '\'' => 238
  | '(' => 333
  | ')' => 333
  | '*' => 389
  | '+' => 584
  | ',' => 278
  | '-' => 333
  | '.' => 278
  | '/' => 278
  | '0' => 556
  | '1' => 556
  | '2' => 556
  | '3' => 556
  | '4' => 556
  | '5' => 556
  | '6' => 556
  | '7' => 556
  | '8' => 556
  | '9' => 556
  | ':' => 333
  | ';' => 333
  | '<' => 584
  | '=' => 584
  | '>' => 584
  | '?' => 611
  | '@' => 975
  | 'A' => 722
  | 'B' => 722
  | 'C' => 722
  | 'D' => 722
  | 'E' => 667
  | 'F' => 611
  | 'G' => 778
  | 'H' => 722
  | 'I' => 278
  | 'J' => 556
  | 'K' => 722
  | 'L' => 611
  | 'M' => 833
  | 'N' => 722
  | 'O' => 778
  | 'P' => 667
  | 'Q' => 778
  | 'R' => 722
  | 'S' => 667
  | 'T' => 611
  | 'U' => 722
  | 'V' => 667
  | 'W' => 944
  | 'X' => 667
  | 'Y' => 667
  | 'Z' => 611
  | '[' => 333
  | '\\' => 278
  | ']' => 333
  | '^' => 584
  | '_' => 556
  | '\x60' => 333
  | 'a' => 556
  | 'b' => 611
  | 'c' => 556
  | 'd' => 611
  | 'e' => 556
  | 'f' => 333
  | 'g' => 611
  | 'h' => 611
  | 'i' => 278
  | 'j' => 278
  | 'k' => 556
  | 'l' => 278
  | 'm' => 889
  | 'n' => 611
  | 'o' => 611
  | 'p' => 611
  | 'q' => 611
  | 'r' => 389
  | 's' => 556
  | 't' => 333
  | 'u' => 611
  | 'v' => 556
  | 'w' => 778
  | 'x' => 556
  | 'y' => 556
  | 'z' => 500
  | '\x7b' => 389
  | '|' => 280
  | '\x7d' => 389
  | '~' => 584
  | _ => 556

/-- `pdfmetrics.stringWidth` for a font given by its width table. -/
def stringWidth (widths : Char → ℕ) (text : List Char) (fontSize : ℚ) : ℚ :=
  qmul (qdiv (qnat ((text.map widths).sum)) 1000) fontSize

/-! ### The Text Fitter: `auto_scale_text` (source lines 42-62) -/

/-- The descending candidate sizes enumerated by the while-loop of
`auto_scale_text` (`font_size = MAX_BODY_SIZE`, step `-0.5`, while
`font_size >= MIN_FONT_SIZE`): 10, 9.5, ..., 6. -/
def bodySizes : List ℚ :=
  [10, mkRat 19 2, 9, mkRat 17 2, 8, mkRat 15 2, 7, mkRat 13 2, 6]

/-- The per-line character budget of the `auto_scale_text` loop at size
`s`: `chars_per_line = int(max_width / avg_char_width)`, where
`avg_char_width = pdfmetrics.stringWidth("n", BODY_FONT_NAME, s)`. -/
def charsPerLine (max_width s : ℚ) : ℤ :=
  pyInt (qdiv max_width (stringWidth helveticaWidth ['n'] s))

/-- One iteration of the `auto_scale_text` loop at size `s`: measure the
width of `"n"`, derive the per-line character budget, wrap `text[:2000]`,
and accept `s` when `line_count * (s * LINE_SPACING) <= max_height`.
`Except.error` models the `ValueError` that `textwrap.wrap` raises when
the budget is not positive. -/
def autoScaleStep (text : List Char) (max_width max_height s : ℚ) :
    Except String (Option (ℚ × List Chunk)) :=
  (wrap (text.take 2000) (charsPerLine max_width s)).map (fun wrapped =>
    if qmul (qnat wrapped.length) (qmul s LINE_SPACING) ≤ max_height then
      some (s, wrapped)
    else none)

/-- The while-loop of `auto_scale_text`: try each candidate size from
largest to smallest, returning the first success (`none` = loop fell
through to the fallback). -/
def autoScaleSearch (text : List Char) (max_width max_height : ℚ) :
    List ℚ → Except String (Option (ℚ × List Chunk))
  | [] => Except.ok none
  | s :: rest =>
    match autoScaleStep text max_width max_height s with
    | Except.error e => Except.error e
    | Except.ok (some r) => Except.ok (some r)
    | Except.ok none => autoScaleSearch text max_width max_height rest

/-- The fallback of `auto_scale_text` (source lines 60-62): wrap the full
text at the character budget of the loop's final iteration (the Python
variable `avg_char_width` retains its `font_size = 6` value after the
loop) and truncate to the line count that fits `max_height` at
`MIN_FONT_SIZE`.  Note the loop wraps `text[:2000]` but the fallback
wraps the whole `text`, as in the source. -/
def autoScaleFallback (text : List Char) (max_width max_height : ℚ) :
    Except String (ℚ × List Chunk) :=
  (wrap text (charsPerLine max_width MIN_FONT_SIZE)).map (fun wrapped =>
    (MIN_FONT_SIZE, pySlice wrapped (pyInt (qdiv max_height (qmul MIN_FONT_SIZE LINE_SPACING)))))

/-- `auto_scale_text(text, max_width, max_height)`.  The source returns
the chosen size together with `'<br/>'.join(wrapped)`; the model keeps
the wrapped line list itself (the join is pure output formatting). -/
def auto_scale_text (text : List Char) (max_width max_height : ℚ) :
    Except String (ℚ × List Chunk) :=
  match autoScaleSearch text max_width max_height bodySizes with
  | Except.error e => Except.error e
  | Except.ok (some r) => Except.ok r
  | Except.ok none => autoScaleFallback text max_width max_height

/-! ### The Title Fitter: `fit_title_font` (source lines 64-71) -/

/-- The descending candidate sizes enumerated by the `fit_title_font`
loop (`font_size = MAX_TITLE_SIZE`, step `-1`): 12, 11, ..., 6. -/
def titleSizes : List ℚ := [12, 11, 10, 9, 8, 7, 6]

/-- `fit_title_font(title, max_width)`: first candidate size (largest
first) at which the full title's measured width fits `max_width`;
`MIN_FONT_SIZE` when none does. -/
def fit_title_font (title : List Char) (max_width : ℚ) : ℚ :=
  match titleSizes.find? (fun s => decide (stringWidth helveticaBoldWidth title s ≤ max_width)) with
  | some s => s
  | none => MIN_FONT_SIZE

/-! ### The Footer Fitter: `calculate_footer_font` (source lines 73-84) -/

/-- The descending candidate sizes enumerated by the
`calculate_footer_font` loop (`font_size = MAX_FOOTER_FONT_SIZE`, step
`-0.5`): 8, 7.5, ..., 6. -/
def footerSizes : List ℚ := [8, mkRat 15 2, 7, mkRat 13 2, 6]

/-- `available_source_width = CONTENT_WIDTH - PAGE_COL_WIDTH - 6`
(6pt padding), from source line 79. -/
def availableSourceWidth : ℚ := qsub (qsub CONTENT_WIDTH PAGE_COL_WIDTH) 6

/-- `calculate_footer_font(source_text, page_text)`: first candidate size
(largest first) at which the source string fits the source column and the
page string fits the fixed page column simultaneously; `MIN_FONT_SIZE`
when none does (source line 84). -/
def calculate_footer_font (source_text page_text : List Char) : ℚ :=
  match footerSizes.find? (fun s =>
      decide (stringWidth helveticaWidth source_text s ≤ availableSourceWidth) &&
      decide (stringWidth helveticaWidth page_text s ≤ PAGE_COL_WIDTH)) with
  | some s => s
  | none => MIN_FONT_SIZE

/-! ### The Card Composer: `create_card_content` (source lines 86-196) -/

/-- The record that `parse_markdown` extracts for one card (title, quote,
analysis, source, page number), i.e. the tuple returned at source line
221.  The Record Source (`MarkdownAnalyzer` plus the heading regex) is an
external provider; its outcome per file is given as input below. -/
structure CardRecord where
  title : List Char
  quote : List Char
  analysis : List Char
  source : List Char
  page_number : List Char

deriving instance DecidableEq for CardRecord

/-- The layout unit `create_card_content` builds for one record: the
fitted sizes and wrapped contents of each region, and the `rowHeights`
list of the final enclosing `Table` (source lines 186-191).
`titleText` is the text rendered into the title paragraph. -/
structure ComposedCard where
  titleText : List Char
  titleFontSize : ℚ
  titleHeight : ℚ
  paraAvailableHeight : ℚ
  quoteFontSize : ℚ
  quoteLines : List Chunk
  analysisFontSize : ℚ
  analysisLines : List Chunk
  bodyFontSize : ℚ
  footerFontSize : ℚ
  rowHeights : List ℚ

deriving instance DecidableEq for ComposedCard

/-- `create_card_content(card_title, quote, analysis, source, page_number)`:
fit the title, split the remaining height budget, fit quote and analysis
at half the paragraph budget each, take the minimum as the shared body
size, and fit the footer.  The title string is rendered verbatim (only
wrapped in bold markup); `rowHeights` is the row-height list of the
returned `Table`. -/
def create_card_content (r : CardRecord) : Except String ComposedCard :=
  let title_font_size := fit_title_font r.title CONTENT_WIDTH
  let title_height := qadd (qmul title_font_size LINE_SPACING) 6
  let para_available_height :=
    qsub (qsub (qsub CONTENT_HEIGHT title_height) 12) FOOTER_HEIGHT
  (auto_scale_text r.quote CONTENT_WIDTH (qdiv para_available_height 2)).bind
    (fun qp =>
      (auto_scale_text r.analysis CONTENT_WIDTH (qdiv para_available_height 2)).bind
        (fun ap =>
          let body_font_size := min qp.1 ap.1
          let source_text := "Source: ".data ++ r.source
          let page_text := "Page: ".data ++ r.page_number
          let footer_font_size := calculate_footer_font source_text page_text
          Except.ok
            { titleText := r.title
              titleFontSize := title_font_size
              titleHeight := title_height
              paraAvailableHeight := para_available_height
              quoteFontSize := qp.1
              quoteLines := qp.2
              analysisFontSize := ap.1
              analysisLines := ap.2
              bodyFontSize := body_font_size
              footerFontSize := footer_font_size
              rowHeights := [title_height, 12, para_available_height, FOOTER_HEIGHT] }))

/-! ### Sheet Layout: the element assembly of `make_avery5388_pdf`
(source lines 245-257) -/

/-- A layout unit handed to the renderer: a composed card or a
`PageBreak()` marker. -/
inductive LayoutElement where
  | card : ComposedCard → LayoutElement
  | pageBreak : LayoutElement

deriving instance DecidableEq for LayoutElement

/-- The per-file loop of `make_avery5388_pdf` (source lines 247-255),
starting at file index `i`: each file's parse outcome is given (the
Record Source is external); on success the composed card is appended,
followed by a `PageBreak` when `(i+1) % 3 == 0`; any error in the `try`
body is caught and turned into one `Skipping <file>: <reason>` diagnostic
line.  Returns (elements, diagnostics). -/
def buildElements : ℕ → List (String × Except String CardRecord) →
    List LayoutElement × List String
  | _, [] => ([], [])
  | i, (name, parsed) :: rest =>
    let next := buildElements (i + 1) rest
    match parsed.bind create_card_content with
    | Except.ok c =>
      (LayoutElement.card c ::
        (if (i + 1) % 3 == 0 then LayoutElement.pageBreak :: next.1 else next.1),
        next.2)
    | Except.error e =>
      (next.1, ("Skipping " ++ name ++ ": " ++ e) :: next.2)

/-- Source lines 256-257: drop a single trailing `PageBreak`, if present,
before handing the elements to the renderer. -/
def popTrailingBreak (l : List LayoutElement) : List LayoutElement :=
  match l.getLast? with
  | some LayoutElement.pageBreak => l.dropLast
  | _ => l

/-- The full element assembly of `make_avery5388_pdf` over the sorted
`.md` file list: build per-file elements and diagnostics, then drop a
trailing page break.  `doc.build(elements)` (the renderer) is the
external consumer of the first component. -/
def make_avery5388_elements (files : List (String × Except String CardRecord)) :
    List LayoutElement × List String :=
  let built := buildElements 0 files
  (popTrailingBreak built.1, built.2)

/-- The card payloads of an element list, in order. -/
def cardsOf (l : List LayoutElement) : List ComposedCard :=
  l.filterMap (fun e => match e with
    | LayoutElement.card c => some c
    | LayoutElement.pageBreak => none)

/-- The number of page-break markers in an element list. -/
def countBreaks (l : List LayoutElement) : ℕ :=
  l.countP (fun e => decide (e = LayoutElement.pageBreak))

/-- Spec-side description of the Sheet Layout (section 4.5 of the spec):
cards in groups of three with one page-break marker between consecutive
groups and none after the last.  Stated from the spec's words, to be
compared with the source-derived `make_avery5388_elements`. -/
def specLayout : List ComposedCard → List LayoutElement
  | [] => []
  | [c1] => [LayoutElement.card c1]
  | [c1, c2] => [LayoutElement.card c1, LayoutElement.card c2]
  | [c1, c2, c3] => [LayoutElement.card c1, LayoutElement.card c2, LayoutElement.card c3]
  | c1 :: c2 :: c3 :: rest =>
    LayoutElement.card c1 :: LayoutElement.card c2 :: LayoutElement.card c3 ::
      LayoutElement.pageBreak :: specLayout rest

/-- A concrete record used in witnesses. -/
def sampleRecord : CardRecord :=
  { title := "Test Card".data
    quote := "Short quote.".data
    analysis := "Short analysis.".data
    source := "Unknown".data
    page_number := "1".data }

/-- The element stream the per-file loop produces when every record
parses and composes: a card per record, with a `PageBreak` after every
file whose index `i` satisfies `(i + 1) % 3 == 0`. -/
def pureElems : ℕ → List ComposedCard → List LayoutElement
  | _, [] => []
  | i, c :: rest =>
    LayoutElement.card c ::
      (if (i + 1) % 3 == 0 then LayoutElement.pageBreak :: pureElems (i + 1) rest
       else pureElems (i + 1) rest)

/-- Break a list into consecutive pieces of `k` characters (the effect of
`break_long_words` on one long word); the first argument after `k` is
fuel, with `w.length` always sufficient when `1 ≤ k`. -/
def chunkEvery (k : ℕ) : ℕ → List Char → List (List Char)
  | 0, _ => []
  | _, [] => []
  | fuel + 1, w => if w.length ≤ k then [w] else w.take k :: chunkEvery k fuel (w.drop k)

/-- The composed card of `sampleRecord`, written out explicitly: title
size 12 (so `title_height = 12 * 1.2 + 6 = 20.4`), paragraph budget
`192 - 20.4 - 12 - 36 = 123.6`, both bodies at size 10 in one line each,
footer at size 8. -/
def sampleComposed : ComposedCard :=
  { titleText := "Test Card".data
    titleFontSize := 12
    titleHeight := mkRat 102 5
    paraAvailableHeight := mkRat 618 5
    quoteFontSize := 10
    quoteLines := ["Short quote.".data]
    analysisFontSize := 10
    analysisLines := ["Short analysis.".data]
    bodyFontSize := 10
    footerFontSize := 8
    rowHeights := [mkRat 102 5, 12, mkRat 618 5, FOOTER_HEIGHT] }

/-- Seven parsed files, the spec's pagination scenario. -/
def sampleFiles : List (String × Except String CardRecord) :=
  List.replicate 7 ("f.md", Except.ok sampleRecord)

/-! ### Bridge lemmas: the kernel-reducible arithmetic agrees with the
field operations of `ℚ` -/

theorem qnat_eq (n : ℕ) : qnat n = (n : ℚ) := by
  rw [qnat, Rat.divInt_one]
  norm_cast

theorem qmul_eq (a b : ℚ) : qmul a b = a * b := by
  rw [qmul, Rat.divInt_eq_div]
  push_cast
  rw [← div_mul_div_comm, Rat.num_div_den, Rat.num_div_den]

theorem mul_den_eq_num (a : ℚ) : a * ((a.den : ℚ)) = ((a.num : ℚ)) := by
  have ha : ((a.den : ℚ)) ≠ 0 := by exact_mod_cast a.den_nz
  exact ((div_eq_iff ha).mp (Rat.num_div_den a)).symm

theorem qadd_eq (a b : ℚ) : qadd a b = a + b := by
  have ha : ((a.den : ℚ)) ≠ 0 := by exact_mod_cast a.den_nz
  have hb : ((b.den : ℚ)) ≠ 0 := by exact_mod_cast b.den_nz
  rw [qadd, Rat.divInt_eq_div]
  push_cast
  rw [div_eq_iff (mul_ne_zero ha hb)]
  linear_combination (-((b.den : ℚ))) * mul_den_eq_num a + (-((a.den : ℚ))) * mul_den_eq_num b

theorem qsub_eq (a b : ℚ) : qsub a b = a - b := by
  have ha : ((a.den : ℚ)) ≠ 0 := by exact_mod_cast a.den_nz
  have hb : ((b.den : ℚ)) ≠ 0 := by exact_mod_cast b.den_nz
  rw [qsub, Rat.divInt_eq_div]
  push_cast
  rw [div_eq_iff (mul_ne_zero ha hb)]
  linear_combination (-((b.den : ℚ))) * mul_den_eq_num a + ((a.den : ℚ)) * mul_den_eq_num b

theorem qdiv_eq (a b : ℚ) : qdiv a b = a / b := by
  rcases eq_or_ne b 0 with hb0 | hb0
  · subst hb0
    simp [qdiv]
  · have ha : ((a.den : ℚ)) ≠ 0 := by exact_mod_cast a.den_nz
    have hbn : ((b.num : ℚ)) ≠ 0 := by
      exact_mod_cast Rat.num_ne_zero.mpr hb0
    rw [qdiv, Rat.divInt_eq_div]
    push_cast
    rw [div_eq_div_iff (mul_ne_zero ha hbn) hb0]
    linear_combination (-((b.den : ℚ)) * b) * mul_den_eq_num a + (a * ((a.den : ℚ))) * mul_den_eq_num b

/-! ### Facts about `pyInt` -/

theorem pyInt_eq_floor (q : ℚ) (h : 0 ≤ q) : pyInt q = ⌊q⌋ := by
  rw [pyInt, Int.tdiv_eq_ediv (by exact_mod_cast Rat.num_nonneg.mpr h) (by positivity),
    Rat.floor_def]

theorem pyInt_le_self (q : ℚ) (h : 0 ≤ q) : ((pyInt q : ℤ) : ℚ) ≤ q := by
  rw [pyInt_eq_floor q h]
  exact Int.floor_le q

theorem le_pyInt_of_le (n : ℤ) (q : ℚ) (h0 : 0 ≤ q) (h : ((n : ℤ) : ℚ) ≤ q) :
    n ≤ pyInt q := by
  rw [pyInt_eq_floor q h0]
  exact Int.le_floor.mpr h

theorem one_le_pyInt (q : ℚ) (h : 1 ≤ q) : 1 ≤ pyInt q :=
  le_pyInt_of_le 1 q (le_trans zero_le_one h) (by exact_mod_cast h)

theorem pyInt_nonneg (q : ℚ) (h : 0 ≤ q) : 0 ≤ pyInt q :=
  le_pyInt_of_le 0 q h (by exact_mod_cast h)

/-! ### Structure of the `auto_scale_text` search loop -/

theorem autoScaleStep_ok_some {text : List Char} {w h s : ℚ} {r : ℚ × List Chunk}
    (he : autoScaleStep text w h s = Except.ok (some r)) :
    r.1 = s ∧ wrap (text.take 2000) (charsPerLine w s) = Except.ok r.2 ∧
      qmul (qnat r.2.length) (qmul s LINE_SPACING) ≤ h := by
  unfold autoScaleStep at he
  cases hw : wrap (text.take 2000) (charsPerLine w s) with
  | error e => rw [hw] at he; exact absurd he (by simp [Except.map])
  | ok ls =>
    rw [hw] at he
    simp only [Except.map, Except.ok.injEq] at he
    split at he
    · rename_i hc
      injection he with he'
      subst he'
      exact ⟨rfl, rfl, hc⟩
    · exact absurd he (by simp)

theorem autoScaleStep_ok_none {text : List Char} {w h s : ℚ} :
    autoScaleStep text w h s = Except.ok none ↔
      ∃ ls, wrap (text.take 2000) (charsPerLine w s) = Except.ok ls ∧
        ¬ qmul (qnat ls.length) (qmul s LINE_SPACING) ≤ h := by
  unfold autoScaleStep
  cases hw : wrap (text.take 2000) (charsPerLine w s) with
  | error e => simp [Except.map]
  | ok ls =>
    simp only [Except.map, Except.ok.injEq]
    constructor
    · intro he
      split at he
      · exact absurd he (by simp)
      · rename_i hc
        exact ⟨ls, rfl, hc⟩
    · rintro ⟨ls', hls', hc⟩
      subst hls'
      rw [if_neg hc]

theorem autoScaleStep_error {text : List Char} {w h s : ℚ} {e : String} :
    autoScaleStep text w h s = Except.error e ↔
      wrap (text.take 2000) (charsPerLine w s) = Except.error e := by
  unfold autoScaleStep
  cases hw : wrap (text.take 2000) (charsPerLine w s) with
  | error e' => simp [Except.map]
  | ok ls => simp [Except.map]

theorem autoScaleSearch_ok_none_iff (text : List Char) (w h : ℚ) (sizes : List ℚ) :
    autoScaleSearch text w h sizes = Except.ok none ↔
      ∀ s ∈ sizes, autoScaleStep text w h s = Except.ok none := by
  induction sizes with
  | nil => simp [autoScaleSearch]
  | cons s rest ih =>
    simp only [autoScaleSearch]
    cases hs : autoScaleStep text w h s with
    | error e => simp [hs]
    | ok o =>
      cases o with
      | none => simp [List.forall_mem_cons, hs, ih]
      | some r => simp [List.forall_mem_cons, hs]

theorem autoScaleSearch_ok_some (text : List Char) (w h : ℚ) :
    ∀ (sizes : List ℚ), sizes.Pairwise (fun a b => b < a) →
      ∀ {r : ℚ × List Chunk}, autoScaleSearch text w h sizes = Except.ok (some r) →
        r.1 ∈ sizes ∧ autoScaleStep text w h r.1 = Except.ok (some r) ∧
          ∀ s' ∈ sizes, r.1 < s' → autoScaleStep text w h s' = Except.ok none := by
  intro sizes
  induction sizes with
  | nil => intro _ r he; simp [autoScaleSearch] at he
  | cons s rest ih =>
    intro hps r he
    simp only [autoScaleSearch] at he
    cases hs : autoScaleStep text w h s with
    | error e => rw [hs] at he; exact absurd he (by simp)
    | ok o =>
      rw [hs] at he
      cases o with
      | some r0 =>
        injection he with he'
        injection he' with he''
        subst he''
        obtain ⟨h1, _, _⟩ := autoScaleStep_ok_some hs
        constructor
        · rw [h1]; exact List.mem_cons_self s rest
        · refine ⟨by rw [h1]; exact hs, ?_⟩
          intro s' hs' hlt
          rcases List.mem_cons.mp hs' with rfl | hmem
          · rw [h1] at hlt; exact absurd hlt (lt_irrefl s')
          · have hlt2 := (List.pairwise_cons.mp hps).1 s' hmem
            rw [h1] at hlt
            exact absurd hlt (not_lt.mpr (le_of_lt hlt2))
      | none =>
        obtain ⟨hmem, hstep, hrest⟩ := ih (List.pairwise_cons.mp hps).2 he
        refine ⟨List.mem_cons_of_mem _ hmem, hstep, ?_⟩
        intro s' hs' hlt
        rcases List.mem_cons.mp hs' with rfl | hmem'
        · exact hs
        · exact hrest s' hmem' hlt

theorem auto_scale_text_cases {text : List Char} {w h : ℚ} {r : ℚ × List Chunk}
    (he : auto_scale_text text w h = Except.ok r) :
    autoScaleSearch text w h bodySizes = Except.ok (some r) ∨
      (autoScaleSearch text w h bodySizes = Except.ok none ∧
        autoScaleFallback text w h = Except.ok r) := by
  unfold auto_scale_text at he
  split at he
  · exact absurd he (by simp)
  · rename_i r0 heq
    injection he with he'
    subst he'
    exact Or.inl heq
  · rename_i heq
    exact Or.inr ⟨heq, he⟩

theorem autoScaleFallback_ok {text : List Char} {w h : ℚ} {r : ℚ × List Chunk}
    (he : autoScaleFallback text w h = Except.ok r) :
    r.1 = MIN_FONT_SIZE ∧ ∃ ls, wrap text (charsPerLine w MIN_FONT_SIZE) = Except.ok ls ∧
      r.2 = pySlice ls (pyInt (qdiv h (qmul MIN_FONT_SIZE LINE_SPACING))) := by
  unfold autoScaleFallback at he
  cases hw : wrap text (charsPerLine w MIN_FONT_SIZE) with
  | error e => rw [hw] at he; exact absurd he (by simp [Except.map])
  | ok ls =>
    rw [hw] at he
    simp only [Except.map, Except.ok.injEq] at he
    subst he
    exact ⟨rfl, ls, rfl, rfl⟩

theorem wrap_ok_of_pos (text : List Char) (k : ℤ) (hk : 1 ≤ k) :
    wrap text k = Except.ok
      (wrapGo (chunkMeasure (splitChunks (munge text)) + 1) k.toNat false
        (splitChunks (munge text))) := by
  unfold wrap
  rw [if_neg (by omega)]

theorem bodySizes_bounds : ∀ s ∈ bodySizes, MIN_FONT_SIZE ≤ s ∧ s ≤ MAX_BODY_SIZE := by decide

theorem bodySizes_sorted : bodySizes.Pairwise (fun a b => b < a) := by decide

theorem stringWidth_n (t : ℚ) :
    stringWidth helveticaWidth ['n'] t = qmul (qdiv (qnat 556) 1000) t := rfl

theorem one_le_charsPerLine {w : ℚ} (s : ℚ) (hs6 : MIN_FONT_SIZE ≤ s)
    (hs10 : s ≤ MAX_BODY_SIZE)
    (hw : stringWidth helveticaWidth ['n'] MAX_BODY_SIZE ≤ w) :
    1 ≤ charsPerLine w s := by
  have hs0 : (0 : ℚ) < s := lt_of_lt_of_le (by norm_num [MIN_FONT_SIZE]) hs6
  have hc : (0 : ℚ) < 556 / 1000 * s := by positivity
  unfold charsPerLine
  apply one_le_pyInt
  rw [stringWidth_n, qmul_eq, qdiv_eq, qnat_eq, qdiv_eq] at *
  push_cast at *
  rw [one_le_div hc]
  calc (556 : ℚ) / 1000 * s ≤ 556 / 1000 * MAX_BODY_SIZE := by
        apply mul_le_mul_of_nonneg_left hs10 (by norm_num)
    _ ≤ w := hw

theorem autoScaleSearch_no_error (text : List Char) (w h : ℚ) :
    ∀ (sizes : List ℚ), (∀ s ∈ sizes, 1 ≤ charsPerLine w s) →
      ∃ o, autoScaleSearch text w h sizes = Except.ok o ∧
        ∀ r, o = some r → r.1 ∈ sizes := by
  intro sizes
  induction sizes with
  | nil => exact fun _ => ⟨none, rfl, by simp⟩
  | cons s rest ih =>
    intro hall
    have h1 : 1 ≤ charsPerLine w s := hall s (List.mem_cons_self s rest)
    obtain ⟨ls, hls⟩ : ∃ ls, wrap (text.take 2000) (charsPerLine w s) = Except.ok ls :=
      ⟨_, wrap_ok_of_pos _ _ h1⟩
    by_cases hc : qmul (qnat ls.length) (qmul s LINE_SPACING) ≤ h
    · refine ⟨some (s, ls), ?_, ?_⟩
      · have hstep : autoScaleStep text w h s = Except.ok (some (s, ls)) := by
          unfold autoScaleStep
          rw [hls]
          show Except.ok (if _ ≤ h then _ else none) = _
          rw [if_pos hc]
        simp only [autoScaleSearch]
        rw [hstep]
      · rintro r hr
        injection hr with hr
        subst hr
        exact List.mem_cons_self s rest
    · have hstepn : autoScaleStep text w h s = Except.ok none := by
        unfold autoScaleStep
        rw [hls]
        show Except.ok (if _ ≤ h then _ else none) = _
        rw [if_neg hc]
      obtain ⟨o, ho, hmem⟩ := ih (fun s' hs' => hall s' (List.mem_cons_of_mem _ hs'))
      refine ⟨o, ?_, fun r hr => List.mem_cons_of_mem _ (hmem r hr)⟩
      simp only [autoScaleSearch]
      rw [hstepn]
      exact ho

/-- C1 counterexample: with text `"hi"`, `max_width = 5 > 0` and
`max_height = 100 > 0`, `auto_scale_text` does not return normally: the
character budget at the first candidate size is
`int(5 / 5.56) = 0` and `textwrap.wrap` raises `ValueError`. -/
theorem C1_counterexample :
    (0 : ℚ) < 5 ∧ (0 : ℚ) < 100 ∧
      ¬ ∃ s ls, auto_scale_text "hi".data 5 100 = Except.ok (s, ls) := by
  refine ⟨by decide, by decide, ?_⟩
  rintro ⟨s, ls, hsl⟩
  rw [show auto_scale_text "hi".data 5 100 =
      Except.error "ValueError: invalid width (must be > 0)" from by decide] at hsl
  simp at hsl

theorem auto_scale_text_ok (text : List Char) (w h : ℚ)
    (hw : stringWidth helveticaWidth ['n'] MAX_BODY_SIZE ≤ w) :
    ∃ s ls, auto_scale_text text w h = Except.ok (s, ls) ∧
      MIN_FONT_SIZE ≤ s ∧ s ≤ MAX_BODY_SIZE := by
  have hcpl : ∀ s ∈ bodySizes, 1 ≤ charsPerLine w s := fun s hs =>
    one_le_charsPerLine s (bodySizes_bounds s hs).1 (bodySizes_bounds s hs).2 hw
  obtain ⟨o, ho, hmem⟩ := autoScaleSearch_no_error text w h bodySizes hcpl
  cases o with
  | some r =>
    have hb := bodySizes_bounds r.1 (hmem r rfl)
    refine ⟨r.1, r.2, ?_, hb.1, hb.2⟩
    unfold auto_scale_text
    rw [ho]
  | none =>
    have h6 : 1 ≤ charsPerLine w MIN_FONT_SIZE :=
      hcpl MIN_FONT_SIZE (by decide)
    obtain ⟨ls, hls⟩ : ∃ ls, wrap text (charsPerLine w MIN_FONT_SIZE) = Except.ok ls :=
      ⟨_, wrap_ok_of_pos _ _ h6⟩
    refine ⟨MIN_FONT_SIZE,
      pySlice ls (pyInt (qdiv h (qmul MIN_FONT_SIZE LINE_SPACING))),
      ?_, le_refl _, by norm_num [MIN_FONT_SIZE, MAX_BODY_SIZE]⟩
    unfold auto_scale_text
    rw [ho]
    unfold autoScaleFallback
    rw [hls]
    rfl

/-- C1 (amended): for every text and box with `0 < max_height` and
`max_width` at least the width of `"n"` at `MAX_BODY_SIZE` (556/1000 * 10
= 5.56 points; below that the first iteration's character budget is 0 and
`textwrap.wrap` raises), `auto_scale_text` returns normally and its
chosen size lies in `[MIN_FONT_SIZE, MAX_BODY_SIZE]` = [6, 10]. -/
theorem C1_size_in_range (text : List Char) (w h : ℚ) (hh : 0 < h)
    (hw : stringWidth helveticaWidth ['n'] MAX_BODY_SIZE ≤ w) :
    ∃ s ls, auto_scale_text text w h = Except.ok (s, ls) ∧
      MIN_FONT_SIZE ≤ s ∧ s ≤ MAX_BODY_SIZE :=
  auto_scale_text_ok text w h hw

/-- C1 witness for the amended theorem, at text `"ab"`, box 100 x 100. -/
theorem C1_witness :
    ((0 : ℚ) < 100 ∧ stringWidth helveticaWidth ['n'] MAX_BODY_SIZE ≤ 100) ∧
      ∃ s ls, auto_scale_text "ab".data 100 100 = Except.ok (s, ls) ∧
        MIN_FONT_SIZE ≤ s ∧ s ≤ MAX_BODY_SIZE :=
  ⟨⟨by decide, by decide⟩, C1_size_in_range "ab".data 100 100 (by decide) (by decide)⟩

/-- C2: if the `auto_scale_text` while-loop returns (non-fallback), the
returned pair is the function's result, the returned lines are
`text[:2000]` wrapped at the chosen size's character budget, the wrapped
line count times `size * LINE_SPACING` is at most `max_height`, and the
chosen size is the largest candidate in the descending sequence 10, 9.5,
..., 6 for which this holds: every strictly larger candidate wraps
without error to a block that is too tall (first success wins). -/
theorem C2_first_success (text : List Char) (w h : ℚ) (s : ℚ) (ls : List Chunk)
    (hs : autoScaleSearch text w h bodySizes = Except.ok (some (s, ls))) :
    auto_scale_text text w h = Except.ok (s, ls) ∧
    s ∈ bodySizes ∧
    wrap (text.take 2000) (charsPerLine w s) = Except.ok ls ∧
    qmul (qnat ls.length) (qmul s LINE_SPACING) ≤ h ∧
    ∀ s' ∈ bodySizes, s < s' →
      ∃ ls', wrap (text.take 2000) (charsPerLine w s') = Except.ok ls' ∧
        ¬ qmul (qnat ls'.length) (qmul s' LINE_SPACING) ≤ h := by
  obtain ⟨hmem, hstep, hlarger⟩ :=
    autoScaleSearch_ok_some text w h bodySizes bodySizes_sorted hs
  obtain ⟨-, hwrap, hcond⟩ := autoScaleStep_ok_some hstep
  refine ⟨?_, hmem, hwrap, hcond, ?_⟩
  · unfold auto_scale_text
    rw [hs]
  · intro s' hs' hlt
    exact autoScaleStep_ok_none.mp (hlarger s' hs' hlt)

/-- C2 witness at text `"ab"`, box 100 x 100: the loop returns size 10
with the single line `"ab"`. -/
theorem C2_witness :
    autoScaleSearch "ab".data 100 100 bodySizes = Except.ok (some (10, [['a', 'b']])) ∧
    (auto_scale_text "ab".data 100 100 = Except.ok (10, [['a', 'b']]) ∧
      (10 : ℚ) ∈ bodySizes ∧
      wrap ("ab".data.take 2000) (charsPerLine 100 10) = Except.ok [['a', 'b']] ∧
      qmul (qnat [['a', 'b']].length) (qmul 10 LINE_SPACING) ≤ 100 ∧
      ∀ s' ∈ bodySizes, (10 : ℚ) < s' →
        ∃ ls', wrap ("ab".data.take 2000) (charsPerLine 100 s') = Except.ok ls' ∧
          ¬ qmul (qnat ls'.length) (qmul s' LINE_SPACING) ≤ 100) :=
  ⟨by decide, C2_first_success "ab".data 100 100 10 [['a', 'b']] (by decide)⟩

theorem LINE_SPACING_eq : LINE_SPACING = 6 / 5 := by
  unfold LINE_SPACING
  rw [Rat.mkRat_eq_divInt, Rat.divInt_eq_div]
  norm_num

/-- C4: when no candidate size fits (every loop iteration wraps without
error but is too tall), and the box is wide enough for the loop to run
(`max_width` at least the width of `"n"` at size 10) with `0 ≤
max_height`, `auto_scale_text` returns `MIN_FONT_SIZE` with the full text
wrapped at `MIN_FONT_SIZE`'s character budget, truncated to at most
`int(max_height / (MIN_FONT_SIZE * LINE_SPACING))` lines, so the returned
lines fit `max_height` at `MIN_FONT_SIZE`; no error is raised. -/
theorem C4_min_size_truncation (text : List Char) (w h : ℚ)
    (hw : stringWidth helveticaWidth ['n'] MAX_BODY_SIZE ≤ w) (hh : 0 ≤ h)
    (hfail : ∀ s ∈ bodySizes, autoScaleStep text w h s = Except.ok none) :
    ∃ ls, wrap text (charsPerLine w MIN_FONT_SIZE) = Except.ok ls ∧
      auto_scale_text text w h =
        Except.ok (MIN_FONT_SIZE,
          pySlice ls (pyInt (qdiv h (qmul MIN_FONT_SIZE LINE_SPACING)))) ∧
      ((pySlice ls (pyInt (qdiv h (qmul MIN_FONT_SIZE LINE_SPACING)))).length : ℤ) ≤
        pyInt (qdiv h (qmul MIN_FONT_SIZE LINE_SPACING)) ∧
      qmul (qnat (pySlice ls (pyInt (qdiv h (qmul MIN_FONT_SIZE LINE_SPACING)))).length)
        (qmul MIN_FONT_SIZE LINE_SPACING) ≤ h := by
  have hnone : autoScaleSearch text w h bodySizes = Except.ok none :=
    (autoScaleSearch_ok_none_iff text w h bodySizes).mpr hfail
  have h6 : 1 ≤ charsPerLine w MIN_FONT_SIZE :=
    one_le_charsPerLine MIN_FONT_SIZE (le_refl _)
      (by norm_num [MIN_FONT_SIZE, MAX_BODY_SIZE]) hw
  obtain ⟨ls, hls⟩ : ∃ ls, wrap text (charsPerLine w MIN_FONT_SIZE) = Except.ok ls :=
    ⟨_, wrap_ok_of_pos _ _ h6⟩
  have hml : qmul MIN_FONT_SIZE LINE_SPACING = 36 / 5 := by
    rw [qmul_eq, LINE_SPACING_eq]
    norm_num [MIN_FONT_SIZE]
  have hq0 : 0 ≤ qdiv h (qmul MIN_FONT_SIZE LINE_SPACING) := by
    rw [qdiv_eq, hml]
    exact div_nonneg hh (by norm_num)
  have hk0 : 0 ≤ pyInt (qdiv h (qmul MIN_FONT_SIZE LINE_SPACING)) := pyInt_nonneg _ hq0
  have hslice : pySlice ls (pyInt (qdiv h (qmul MIN_FONT_SIZE LINE_SPACING))) =
      ls.take (pyInt (qdiv h (qmul MIN_FONT_SIZE LINE_SPACING))).toNat := by
    unfold pySlice
    rw [if_pos hk0]
  have hlen1 : ((pySlice ls (pyInt (qdiv h (qmul MIN_FONT_SIZE LINE_SPACING)))).length : ℤ) ≤
      pyInt (qdiv h (qmul MIN_FONT_SIZE LINE_SPACING)) := by
    rw [hslice]
    calc ((ls.take (pyInt (qdiv h (qmul MIN_FONT_SIZE LINE_SPACING))).toNat).length : ℤ) ≤
          (((pyInt (qdiv h (qmul MIN_FONT_SIZE LINE_SPACING))).toNat : ℕ) : ℤ) := by
          have h1 : (ls.take (pyInt (qdiv h (qmul MIN_FONT_SIZE LINE_SPACING))).toNat).length ≤
              (pyInt (qdiv h (qmul MIN_FONT_SIZE LINE_SPACING))).toNat := by
            rw [List.length_take]
            exact min_le_left _ _
          exact_mod_cast h1
      _ = pyInt (qdiv h (qmul MIN_FONT_SIZE LINE_SPACING)) := Int.toNat_of_nonneg hk0
  refine ⟨ls, hls, ?_, hlen1, ?_⟩
  · unfold auto_scale_text
    rw [hnone]
    unfold autoScaleFallback
    rw [hls]
    rfl
  · have h2 : (((pySlice ls (pyInt (qdiv h (qmul MIN_FONT_SIZE LINE_SPACING)))).length : ℕ) : ℚ) ≤
        qdiv h (qmul MIN_FONT_SIZE LINE_SPACING) := by
      calc (((pySlice ls (pyInt (qdiv h (qmul MIN_FONT_SIZE LINE_SPACING)))).length : ℕ) : ℚ) ≤
            ((pyInt (qdiv h (qmul MIN_FONT_SIZE LINE_SPACING)) : ℤ) : ℚ) := by
            exact_mod_cast hlen1
        _ ≤ qdiv h (qmul MIN_FONT_SIZE LINE_SPACING) := pyInt_le_self _ hq0
    set m := (pySlice ls (pyInt (qdiv h (qmul MIN_FONT_SIZE LINE_SPACING)))).length with hm
    rw [qdiv_eq, hml, le_div_iff₀ (by norm_num : (0 : ℚ) < 36 / 5)] at h2
    rw [qmul_eq, qnat_eq, hml]
    exact h2

/-- C4 witness: text `"a a a a"`, box 6 x 10.  No candidate size fits (the
character budget is 1 at every size, giving four lines); the fallback
returns size 6 with the four wrapped lines truncated to
`int(10 / 7.2) = 1` line. -/
theorem C4_witness :
    (stringWidth helveticaWidth ['n'] MAX_BODY_SIZE ≤ 6 ∧ (0 : ℚ) ≤ 10 ∧
      ∀ s ∈ bodySizes, autoScaleStep "a a a a".data 6 10 s = Except.ok none) ∧
    ∃ ls, wrap "a a a a".data (charsPerLine 6 MIN_FONT_SIZE) = Except.ok ls ∧
      auto_scale_text "a a a a".data 6 10 =
        Except.ok (MIN_FONT_SIZE,
          pySlice ls (pyInt (qdiv 10 (qmul MIN_FONT_SIZE LINE_SPACING)))) ∧
      ((pySlice ls (pyInt (qdiv 10 (qmul MIN_FONT_SIZE LINE_SPACING)))).length : ℤ) ≤
        pyInt (qdiv 10 (qmul MIN_FONT_SIZE LINE_SPACING)) ∧
      qmul (qnat (pySlice ls (pyInt (qdiv 10 (qmul MIN_FONT_SIZE LINE_SPACING)))).length)
        (qmul MIN_FONT_SIZE LINE_SPACING) ≤ 10 :=
  ⟨⟨by decide, by decide, by decide⟩,
    C4_min_size_truncation "a a a a".data 6 10 (by decide) (by decide) (by decide)⟩

/-- C6 counterexample: with text `"   b b"` (three spaces, `b`, space,
`b`) and `max_height = 8`, widths 11 ≤ 14.5 are both defined (no raise),
yet the narrower box chooses size 6.5 while the wider box falls through
to size 6: the chosen size is not monotone in `max_width`.  (Greedy
wrapping's line count is not antitone in the character budget: at budget
3 the leading whitespace is consumed silently giving the single line
`"b b"`, at budget 4 it produces the two lines `"   b"`, `"b"`.) -/
theorem C6_counterexample :
    (11 : ℚ) ≤ mkRat 29 2 ∧
    auto_scale_text "   b b".data 11 8 = Except.ok (mkRat 13 2, ["b b".data]) ∧
    auto_scale_text "   b b".data (mkRat 29 2) 8 = Except.ok (6, ["   b".data]) ∧
    ¬ (mkRat 13 2 ≤ (6 : ℚ)) := by decide

/-- C6 (amended): for fixed text and height, the chosen size is monotone
non-decreasing in the width provided the wrapped line count is antitone
between the two widths at every candidate size (which the counterexample
shows is not automatic for greedy wrapping): if both calls return and for
each candidate size the wrap at the narrower width has at least as many
lines as the wrap at the wider width, then the size chosen for the
narrower width is at most the size chosen for the wider width. -/
theorem C6_size_monotone (text : List Char) (h w1 w2 : ℚ) (hw : w1 ≤ w2)
    (s1 s2 : ℚ) (ls1 ls2 : List Chunk)
    (h1 : auto_scale_text text w1 h = Except.ok (s1, ls1))
    (h2 : auto_scale_text text w2 h = Except.ok (s2, ls2))
    (hcounts : ∀ s ∈ bodySizes, ∀ m1 m2,
      wrap (text.take 2000) (charsPerLine w1 s) = Except.ok m1 →
      wrap (text.take 2000) (charsPerLine w2 s) = Except.ok m2 →
      m2.length ≤ m1.length) :
    s1 ≤ s2 := by
  rcases auto_scale_text_cases h1 with hs1 | ⟨hn1, hf1⟩
  · obtain ⟨hmem1, hstep1, _⟩ :=
      autoScaleSearch_ok_some text w1 h bodySizes bodySizes_sorted hs1
    obtain ⟨-, hwrap1, hcond1⟩ := autoScaleStep_ok_some hstep1
    by_contra hlt
    push_neg at hlt
    have hstep2none : autoScaleStep text w2 h s1 = Except.ok none := by
      rcases auto_scale_text_cases h2 with hs2 | ⟨hn2, _⟩
      · obtain ⟨_, _, hlarger2⟩ :=
          autoScaleSearch_ok_some text w2 h bodySizes bodySizes_sorted hs2
        exact hlarger2 s1 hmem1 hlt
      · exact (autoScaleSearch_ok_none_iff text w2 h bodySizes).mp hn2 s1 hmem1
    obtain ⟨m2, hwrap2, hnc⟩ := autoScaleStep_ok_none.mp hstep2none
    have hlen := hcounts s1 hmem1 ls1 m2 hwrap1 hwrap2
    apply hnc
    have hs1pos : (0 : ℚ) ≤ qmul s1 LINE_SPACING := by
      rw [qmul_eq, LINE_SPACING_eq]
      have h6 : MIN_FONT_SIZE ≤ s1 := (bodySizes_bounds s1 hmem1).1
      have : (0 : ℚ) ≤ s1 := le_trans (by norm_num [MIN_FONT_SIZE]) h6
      positivity
    rw [qmul_eq, qnat_eq] at hcond1 ⊢
    refine le_trans (mul_le_mul_of_nonneg_right ?_ hs1pos) hcond1
    exact_mod_cast hlen
  · have hs1min : s1 = MIN_FONT_SIZE := (autoScaleFallback_ok hf1).1
    rcases auto_scale_text_cases h2 with hs2 | ⟨_, hf2⟩
    · obtain ⟨hmem2, _, _⟩ :=
        autoScaleSearch_ok_some text w2 h bodySizes bodySizes_sorted hs2
      rw [hs1min]
      exact (bodySizes_bounds s2 hmem2).1
    · have hs2min : s2 = MIN_FONT_SIZE := (autoScaleFallback_ok hf2).1
      rw [hs1min, hs2min]

/-- C6 witness for the amended theorem, at text `"ab"`, equal widths 100
and height 100 (the line-count hypothesis holds trivially). -/
theorem C6_witness :
    ((100 : ℚ) ≤ 100 ∧
      auto_scale_text "ab".data 100 100 = Except.ok (10, [['a', 'b']])) ∧
    (10 : ℚ) ≤ 10 :=
  ⟨⟨le_refl _, by decide⟩,
    C6_size_monotone "ab".data 100 100 100 (le_refl _) 10 10 [['a', 'b']] [['a', 'b']]
      (by decide) (by decide)
      (fun s hs m1 m2 e1 e2 => by
        rw [e1] at e2
        injection e2 with e3
        rw [e3])⟩

theorem exceptBind_ok {ε α β : Type} {x : Except ε α} {f : α → Except ε β} {c : β}
    (h : x.bind f = Except.ok c) : ∃ a, x = Except.ok a ∧ f a = Except.ok c := by
  cases x with
  | error e => exact absurd h (by simp [Except.bind])
  | ok a => exact ⟨a, rfl, h⟩

theorem exceptBind_error {ε α β : Type} {x : Except ε α} {f : α → Except ε β} {e : ε}
    (h : x.bind f = Except.error e) :
    x = Except.error e ∨ ∃ a, x = Except.ok a ∧ f a = Except.error e := by
  cases x with
  | error e2 =>
    simp only [Except.bind] at h
    left
    injection h with h2
    rw [h2]
  | ok a => exact Or.inr ⟨a, rfl, h⟩

theorem create_card_content_eq (r : CardRecord) :
    create_card_content r =
      (auto_scale_text r.quote CONTENT_WIDTH
        (qdiv (qsub (qsub (qsub CONTENT_HEIGHT
          (qadd (qmul (fit_title_font r.title CONTENT_WIDTH) LINE_SPACING) 6)) 12)
          FOOTER_HEIGHT) 2)).bind (fun qp =>
      (auto_scale_text r.analysis CONTENT_WIDTH
        (qdiv (qsub (qsub (qsub CONTENT_HEIGHT
          (qadd (qmul (fit_title_font r.title CONTENT_WIDTH) LINE_SPACING) 6)) 12)
          FOOTER_HEIGHT) 2)).bind (fun ap =>
      Except.ok
        { titleText := r.title
          titleFontSize := fit_title_font r.title CONTENT_WIDTH
          titleHeight := qadd (qmul (fit_title_font r.title CONTENT_WIDTH) LINE_SPACING) 6
          paraAvailableHeight := qsub (qsub (qsub CONTENT_HEIGHT
            (qadd (qmul (fit_title_font r.title CONTENT_WIDTH) LINE_SPACING) 6)) 12)
            FOOTER_HEIGHT
          quoteFontSize := qp.1
          quoteLines := qp.2
          analysisFontSize := ap.1
          analysisLines := ap.2
          bodyFontSize := min qp.1 ap.1
          footerFontSize := calculate_footer_font ("Source: ".data ++ r.source)
            ("Page: ".data ++ r.page_number)
          rowHeights := [qadd (qmul (fit_title_font r.title CONTENT_WIDTH) LINE_SPACING) 6,
            12,
            qsub (qsub (qsub CONTENT_HEIGHT
              (qadd (qmul (fit_title_font r.title CONTENT_WIDTH) LINE_SPACING) 6)) 12)
              FOOTER_HEIGHT,
            FOOTER_HEIGHT] })) := rfl

theorem find?_desc_max {p : ℚ → Bool} :
    ∀ {l : List ℚ}, l.Pairwise (fun a b => b < a) → ∀ {s : ℚ}, l.find? p = some s →
      s ∈ l ∧ p s = true ∧ ∀ s' ∈ l, p s' = true → s' ≤ s := by
  intro l
  induction l with
  | nil => intro _ s h; simp at h
  | cons a t ih =>
    intro hps s h
    by_cases hpa : p a
    · rw [List.find?_cons_of_pos _ hpa] at h
      injection h with h
      subst h
      refine ⟨List.mem_cons_self _ _, hpa, ?_⟩
      intro s' hs' _
      rcases List.mem_cons.mp hs' with rfl | hm
      · exact le_refl _
      · exact le_of_lt ((List.pairwise_cons.mp hps).1 s' hm)
    · rw [List.find?_cons_of_neg _ hpa] at h
      obtain ⟨hmem, hp, hmax⟩ := ih (List.pairwise_cons.mp hps).2 h
      refine ⟨List.mem_cons_of_mem _ hmem, hp, ?_⟩
      intro s' hs' hp'
      rcases List.mem_cons.mp hs' with rfl | hm
      · exact absurd hp' hpa
      · exact hmax s' hm hp'

theorem titleSizes_sorted : titleSizes.Pairwise (fun a b => b < a) := by decide

theorem footerSizes_sorted : footerSizes.Pairwise (fun a b => b < a) := by decide

theorem footerSizes_le_max : ∀ s ∈ footerSizes, s ≤ MAX_FOOTER_FONT_SIZE := by decide

/-- C7: `fit_title_font` returns the largest size among the descending
candidates 12, 11, ..., 6 at which the measured width of the whole title
fits `max_width`, and `MIN_FONT_SIZE` when no candidate fits; and the
composed card renders the title string itself unmodified (only the size
varies — `create_card_content` stores the record's title verbatim). -/
theorem C7_title_fitter (title : List Char) (w : ℚ) (r : CardRecord) :
    (∀ c : ComposedCard, create_card_content r = Except.ok c → c.titleText = r.title) ∧
    ((∃ s ∈ titleSizes, stringWidth helveticaBoldWidth title s ≤ w) →
      fit_title_font title w ∈ titleSizes ∧
      stringWidth helveticaBoldWidth title (fit_title_font title w) ≤ w ∧
      ∀ s ∈ titleSizes, stringWidth helveticaBoldWidth title s ≤ w →
        s ≤ fit_title_font title w) ∧
    ((∀ s ∈ titleSizes, ¬ stringWidth helveticaBoldWidth title s ≤ w) →
      fit_title_font title w = MIN_FONT_SIZE) := by
  refine ⟨?_, ?_, ?_⟩
  · intro c hc
    rw [create_card_content_eq] at hc
    obtain ⟨qp, hq2, h2⟩ := exceptBind_ok hc
    obtain ⟨ap, ha2, h3⟩ := exceptBind_ok h2
    have h4 := Except.ok.inj h3
    subst h4
    rfl
  · rintro ⟨s0, hs0, hfit⟩
    unfold fit_title_font
    cases hf : titleSizes.find? (fun s => decide (stringWidth helveticaBoldWidth title s ≤ w)) with
    | some s =>
      obtain ⟨hmem, hp, hmax⟩ := find?_desc_max titleSizes_sorted hf
      exact ⟨hmem, of_decide_eq_true hp,
        fun s' hs' hle => hmax s' hs' (decide_eq_true hle)⟩
    | none =>
      rw [List.find?_eq_none] at hf
      exact absurd (decide_eq_true hfit) (hf s0 hs0)
  · intro hnone
    unfold fit_title_font
    cases hf : titleSizes.find? (fun s => decide (stringWidth helveticaBoldWidth title s ≤ w)) with
    | some s =>
      obtain ⟨hmem, hp, _⟩ := find?_desc_max titleSizes_sorted hf
      exact absurd (of_decide_eq_true hp) (hnone s hmem)
    | none => rfl

/-- C7 witness at title `"Test Card"`, width `CONTENT_WIDTH`, record
`sampleRecord`: the title fits at the maximum size 12 and the composed
card carries the title verbatim. -/
theorem C7_witness :
    (∃ s ∈ titleSizes, stringWidth helveticaBoldWidth "Test Card".data s ≤ CONTENT_WIDTH) ∧
    (create_card_content sampleRecord = Except.ok sampleComposed →
      sampleComposed.titleText = sampleRecord.title) ∧
    (fit_title_font "Test Card".data CONTENT_WIDTH ∈ titleSizes ∧
      stringWidth helveticaBoldWidth "Test Card".data
        (fit_title_font "Test Card".data CONTENT_WIDTH) ≤ CONTENT_WIDTH ∧
      ∀ s ∈ titleSizes, stringWidth helveticaBoldWidth "Test Card".data s ≤ CONTENT_WIDTH →
        s ≤ fit_title_font "Test Card".data CONTENT_WIDTH) :=
  ⟨by decide,
    (C7_title_fitter "Test Card".data CONTENT_WIDTH sampleRecord).1 sampleComposed,
    (C7_title_fitter "Test Card".data CONTENT_WIDTH sampleRecord).2.1 (by decide)⟩

/-- C8: `calculate_footer_font` returns one shared size, the largest
among the descending half-step candidates 8, 7.5, ..., 6 at which the
source string fits `CONTENT_WIDTH - PAGE_COL_WIDTH - 6` and the page
string fits `PAGE_COL_WIDTH` simultaneously; it falls back to the
minimum when no candidate satisfies both; and when both constraints hold
at `MAX_FOOTER_FONT_SIZE` the returned size is `MAX_FOOTER_FONT_SIZE`. -/
theorem C8_footer_fitter (src pg : List Char) :
    ((∃ s ∈ footerSizes, stringWidth helveticaWidth src s ≤ availableSourceWidth ∧
        stringWidth helveticaWidth pg s ≤ PAGE_COL_WIDTH) →
      calculate_footer_font src pg ∈ footerSizes ∧
      stringWidth helveticaWidth src (calculate_footer_font src pg) ≤ availableSourceWidth ∧
      stringWidth helveticaWidth pg (calculate_footer_font src pg) ≤ PAGE_COL_WIDTH ∧
      ∀ s ∈ footerSizes,
        stringWidth helveticaWidth src s ≤ availableSourceWidth →
        stringWidth helveticaWidth pg s ≤ PAGE_COL_WIDTH →
        s ≤ calculate_footer_font src pg) ∧
    ((∀ s ∈ footerSizes, ¬ (stringWidth helveticaWidth src s ≤ availableSourceWidth ∧
        stringWidth helveticaWidth pg s ≤ PAGE_COL_WIDTH)) →
      calculate_footer_font src pg = MIN_FONT_SIZE ∧
      MIN_FONT_SIZE = MIN_FOOTER_FONT_SIZE) ∧
    ((stringWidth helveticaWidth src MAX_FOOTER_FONT_SIZE ≤ availableSourceWidth ∧
        stringWidth helveticaWidth pg MAX_FOOTER_FONT_SIZE ≤ PAGE_COL_WIDTH) →
      calculate_footer_font src pg = MAX_FOOTER_FONT_SIZE) := by
  have hchar : ∀ s : ℚ,
      ((decide (stringWidth helveticaWidth src s ≤ availableSourceWidth) &&
        decide (stringWidth helveticaWidth pg s ≤ PAGE_COL_WIDTH)) = true) ↔
      (stringWidth helveticaWidth src s ≤ availableSourceWidth ∧
        stringWidth helveticaWidth pg s ≤ PAGE_COL_WIDTH) := by
    intro s
    rw [Bool.and_eq_true, decide_eq_true_eq, decide_eq_true_eq]
  refine ⟨?_, ?_, ?_⟩
  · rintro ⟨s0, hs0, hfit⟩
    unfold calculate_footer_font
    cases hf : footerSizes.find? (fun s =>
        decide (stringWidth helveticaWidth src s ≤ availableSourceWidth) &&
        decide (stringWidth helveticaWidth pg s ≤ PAGE_COL_WIDTH)) with
    | some s =>
      obtain ⟨hmem, hp, hmax⟩ := find?_desc_max footerSizes_sorted hf
      obtain ⟨hp1, hp2⟩ := (hchar s).mp hp
      exact ⟨hmem, hp1, hp2,
        fun s' hs' h1 h2 => hmax s' hs' ((hchar s').mpr ⟨h1, h2⟩)⟩
    | none =>
      rw [List.find?_eq_none] at hf
      exact absurd ((hchar s0).mpr hfit) (hf s0 hs0)
  · intro hnone
    unfold calculate_footer_font
    cases hf : footerSizes.find? (fun s =>
        decide (stringWidth helveticaWidth src s ≤ availableSourceWidth) &&
        decide (stringWidth helveticaWidth pg s ≤ PAGE_COL_WIDTH)) with
    | some s =>
      obtain ⟨hmem, hp, _⟩ := find?_desc_max footerSizes_sorted hf
      exact absurd ((hchar s).mp hp) (hnone s hmem)
    | none => exact ⟨rfl, rfl⟩
  · intro ⟨h1, h2⟩
    unfold calculate_footer_font
    cases hf : footerSizes.find? (fun s =>
        decide (stringWidth helveticaWidth src s ≤ availableSourceWidth) &&
        decide (stringWidth helveticaWidth pg s ≤ PAGE_COL_WIDTH)) with
    | some s =>
      obtain ⟨hmem, hp, hmax⟩ := find?_desc_max footerSizes_sorted hf
      exact le_antisymm (footerSizes_le_max s hmem)
        (hmax MAX_FOOTER_FONT_SIZE (by decide) ((hchar _).mpr ⟨h1, h2⟩))
    | none =>
      rw [List.find?_eq_none] at hf
      exact absurd ((hchar _).mpr ⟨h1, h2⟩) (hf MAX_FOOTER_FONT_SIZE (by decide))

/-- C8 witness: `"Source: Unknown"` / `"Page: 1"` jointly fit at the
maximum footer size 8, and the fitter returns 8. -/
theorem C8_witness :
    (stringWidth helveticaWidth "Source: Unknown".data MAX_FOOTER_FONT_SIZE ≤
        availableSourceWidth ∧
      stringWidth helveticaWidth "Page: 1".data MAX_FOOTER_FONT_SIZE ≤ PAGE_COL_WIDTH) ∧
    calculate_footer_font "Source: Unknown".data "Page: 1".data = MAX_FOOTER_FONT_SIZE :=
  ⟨⟨by decide, by decide⟩,
    (C8_footer_fitter "Source: Unknown".data "Page: 1".data).2.2 ⟨by decide, by decide⟩⟩

set_option maxHeartbeats 2000000 in
/-- C10: every composed card's four region heights — title region, the
fixed 12-point spacer, body region, fixed footer region — are exactly
the `rowHeights` of the final table and sum to the fixed
`CONTENT_HEIGHT`, whatever the fitted title size is. -/
theorem C10_fixed_height (r : CardRecord) (c : ComposedCard)
    (hc : create_card_content r = Except.ok c) :
    c.rowHeights = [c.titleHeight, 12, c.paraAvailableHeight, FOOTER_HEIGHT] ∧
    c.rowHeights.sum = CONTENT_HEIGHT := by
  rw [create_card_content_eq] at hc
  generalize hT : fit_title_font r.title CONTENT_WIDTH = T at hc
  obtain ⟨qp, hq2, h2⟩ := exceptBind_ok hc
  obtain ⟨ap, ha2, h3⟩ := exceptBind_ok h2
  have h4 := Except.ok.inj h3
  subst h4
  constructor
  · rfl
  · show List.sum [qadd (qmul T LINE_SPACING) 6, 12,
        qsub (qsub (qsub CONTENT_HEIGHT (qadd (qmul T LINE_SPACING) 6)) 12) FOOTER_HEIGHT,
        FOOTER_HEIGHT] = CONTENT_HEIGHT
    simp only [List.sum_cons, List.sum_nil, add_zero, qadd_eq, qsub_eq, qmul_eq]
    ring

/-- C10 witness at `sampleRecord` and its explicit composed card. -/
theorem C10_witness :
    create_card_content sampleRecord = Except.ok sampleComposed ∧
    (sampleComposed.rowHeights =
        [sampleComposed.titleHeight, 12, sampleComposed.paraAvailableHeight, FOOTER_HEIGHT] ∧
      sampleComposed.rowHeights.sum = CONTENT_HEIGHT) :=
  ⟨by decide, C10_fixed_height sampleRecord sampleComposed (by decide)⟩

theorem create_card_content_ok (r : CardRecord) :
    ∃ c, create_card_content r = Except.ok c := by
  have hw : stringWidth helveticaWidth ['n'] MAX_BODY_SIZE ≤ CONTENT_WIDTH := by decide
  obtain ⟨qs, qls, hq, -, -⟩ := auto_scale_text_ok r.quote CONTENT_WIDTH
    (qdiv (qsub (qsub (qsub CONTENT_HEIGHT
      (qadd (qmul (fit_title_font r.title CONTENT_WIDTH) LINE_SPACING) 6)) 12)
      FOOTER_HEIGHT) 2) hw
  obtain ⟨as2, als, ha, -, -⟩ := auto_scale_text_ok r.analysis CONTENT_WIDTH
    (qdiv (qsub (qsub (qsub CONTENT_HEIGHT
      (qadd (qmul (fit_title_font r.title CONTENT_WIDTH) LINE_SPACING) 6)) 12)
      FOOTER_HEIGHT) 2) hw
  cases hcc : create_card_content r with
  | ok c => exact ⟨c, rfl⟩
  | error e =>
    exfalso
    rw [create_card_content_eq] at hcc
    rcases exceptBind_error hcc with h1 | ⟨a, ha1, h2⟩
    · rw [hq] at h1
      exact Except.noConfusion h1
    · rcases exceptBind_error h2 with h3 | ⟨b, hb1, h4⟩
      · rw [ha] at h3
        exact Except.noConfusion h3
      · exact Except.noConfusion h4

theorem cardsOf_nil : cardsOf [] = [] := rfl

theorem cardsOf_cons_card (c : ComposedCard) (l : List LayoutElement) :
    cardsOf (LayoutElement.card c :: l) = c :: cardsOf l := rfl

theorem cardsOf_cons_break (l : List LayoutElement) :
    cardsOf (LayoutElement.pageBreak :: l) = cardsOf l := rfl

theorem cardsOf_append (l1 l2 : List LayoutElement) :
    cardsOf (l1 ++ l2) = cardsOf l1 ++ cardsOf l2 := by
  simp [cardsOf, List.filterMap_append]

theorem countBreaks_nil : countBreaks [] = 0 := rfl

theorem countBreaks_cons_card (c : ComposedCard) (l : List LayoutElement) :
    countBreaks (LayoutElement.card c :: l) = countBreaks l := by
  simp [countBreaks, List.countP_cons]

theorem countBreaks_cons_break (l : List LayoutElement) :
    countBreaks (LayoutElement.pageBreak :: l) = countBreaks l + 1 := by
  simp [countBreaks, List.countP_cons]

theorem popTrailingBreak_append (l1 : List LayoutElement) {l2 : List LayoutElement}
    (h : l2 ≠ []) :
    popTrailingBreak (l1 ++ l2) = l1 ++ popTrailingBreak l2 := by
  unfold popTrailingBreak
  rw [List.getLast?_append_of_ne_nil l1 h]
  cases hl : l2.getLast? with
  | none => rfl
  | some e =>
    cases e with
    | card c => rfl
    | pageBreak =>
      obtain ⟨b, l2', rfl⟩ : ∃ b l2', l2 = b :: l2' := by
        cases l2 with
        | nil => exact absurd rfl h
        | cons b t => exact ⟨b, t, rfl⟩
      rw [List.dropLast_append_cons]

theorem cardsOf_popTrailingBreak (l : List LayoutElement) :
    cardsOf (popTrailingBreak l) = cardsOf l := by
  unfold popTrailingBreak
  cases hl : l.getLast? with
  | none => rfl
  | some e =>
    cases e with
    | card c => rfl
    | pageBreak =>
      have hsplit : l.dropLast ++ [LayoutElement.pageBreak] = l :=
        List.dropLast_append_getLast? _ (Option.mem_def.mpr hl)
      conv_rhs => rw [← hsplit]
      rw [cardsOf_append]
      simp [cardsOf]

theorem buildElements_cons (i : ℕ) (name : String) (parsed : Except String CardRecord)
    (rest : List (String × Except String CardRecord)) :
    buildElements i ((name, parsed) :: rest) =
      match parsed.bind create_card_content with
      | Except.ok c =>
        (LayoutElement.card c ::
          (if (i + 1) % 3 == 0 then LayoutElement.pageBreak :: (buildElements (i + 1) rest).1
           else (buildElements (i + 1) rest).1),
          (buildElements (i + 1) rest).2)
      | Except.error e =>
        ((buildElements (i + 1) rest).1,
          ("Skipping " ++ name ++ ": " ++ e) :: (buildElements (i + 1) rest).2) := rfl

theorem buildElements_spec :
    ∀ (files : List (String × Except String CardRecord)) (i : ℕ),
      (buildElements i files).2 = files.filterMap (fun p =>
        match p.2.bind create_card_content with
        | Except.error e => some ("Skipping " ++ p.1 ++ ": " ++ e)
        | Except.ok _ => none) ∧
      cardsOf (buildElements i files).1 =
        files.filterMap (fun p => (p.2.bind create_card_content).toOption) := by
  intro files
  induction files with
  | nil => intro i; exact ⟨rfl, rfl⟩
  | cons p rest ih =>
    intro i
    obtain ⟨name, parsed⟩ := p
    obtain ⟨ih1, ih2⟩ := ih (i + 1)
    rw [buildElements_cons]
    cases hpc : parsed.bind create_card_content with
    | ok c =>
      constructor
      · simp [List.filterMap_cons, hpc, ih1]
      · rw [List.filterMap_cons]
        by_cases hbr : ((i + 1) % 3 == 0) = true
        · simp [hbr, hpc, cardsOf_cons_card, cardsOf_cons_break, ih2, Except.toOption]
        · simp only [Bool.not_eq_true] at hbr
          simp [hbr, hpc, cardsOf_cons_card, ih2, Except.toOption]
    | error e =>
      constructor
      · simp [List.filterMap_cons, hpc, ih1]
      · simp [List.filterMap_cons, hpc, ih2, Except.toOption]

/-- C9: per-record errors are recovered locally and never abort the run:
for every file list, the diagnostics are exactly one `Skipping <file>:
<reason>` line per failing record (in order), and the cards that reach
the renderer are exactly the composed cards of the successfully parsed
records, in order — a failing record contributes no layout unit and does
not prevent later records from being composed. -/
theorem C9_per_record_recovery (files : List (String × Except String CardRecord)) :
    (make_avery5388_elements files).2 = files.filterMap (fun p =>
      match p.2.bind create_card_content with
      | Except.error e => some ("Skipping " ++ p.1 ++ ": " ++ e)
      | Except.ok _ => none) ∧
    cardsOf (make_avery5388_elements files).1 =
      files.filterMap (fun p => (p.2.bind create_card_content).toOption) := by
  obtain ⟨h1, h2⟩ := buildElements_spec files 0
  exact ⟨h1, by
    show cardsOf (popTrailingBreak (buildElements 0 files).1) = _
    rw [cardsOf_popTrailingBreak]
    exact h2⟩

theorem pureElems_cons (i : ℕ) (c : ComposedCard) (rest : List ComposedCard) :
    pureElems i (c :: rest) = LayoutElement.card c ::
      (if (i + 1) % 3 == 0 then LayoutElement.pageBreak :: pureElems (i + 1) rest
       else pureElems (i + 1) rest) := rfl

theorem pureElems_ne_nil (i : ℕ) (c : ComposedCard) (rest : List ComposedCard) :
    pureElems i (c :: rest) ≠ [] := by
  rw [pureElems_cons]
  exact List.cons_ne_nil _ _

theorem buildElements_all_ok :
    ∀ (files : List (String × Except String CardRecord)) (i : ℕ),
      (∀ p ∈ files, ∃ c, p.2.bind create_card_content = Except.ok c) →
      (buildElements i files).1 =
        pureElems i (files.filterMap (fun p => (p.2.bind create_card_content).toOption)) := by
  intro files
  induction files with
  | nil => intro i _; rfl
  | cons p rest ih =>
    intro i hall
    obtain ⟨name, parsed⟩ := p
    obtain ⟨c, hc⟩ := hall (name, parsed) (List.mem_cons_self _ _)
    have hc' : parsed.bind create_card_content = Except.ok c := hc
    rw [buildElements_cons, hc']
    dsimp only
    rw [List.filterMap_cons]
    dsimp only
    rw [hc', show (Except.ok c : Except String ComposedCard).toOption = some c from rfl]
    dsimp only
    rw [pureElems_cons, ih (i + 1) (fun q hq => hall q (List.mem_cons_of_mem _ hq))]

theorem specLayout_ne_nil (c : ComposedCard) (rest : List ComposedCard) :
    specLayout (c :: rest) ≠ [] := by
  cases rest with
  | nil => simp [specLayout]
  | cons c2 t2 =>
    cases t2 with
    | nil => simp [specLayout]
    | cons c3 t3 =>
      cases t3 with
      | nil => simp [specLayout]
      | cons c4 t4 => simp [specLayout]

theorem specLayout_cons3 (c1 c2 c3 x : ComposedCard) (xs : List ComposedCard) :
    specLayout (c1 :: c2 :: c3 :: x :: xs) =
      LayoutElement.card c1 :: LayoutElement.card c2 :: LayoutElement.card c3 ::
        LayoutElement.pageBreak :: specLayout (x :: xs) := rfl

theorem popTrailingBreak_pureElems :
    ∀ (cards : List ComposedCard) (i : ℕ), i % 3 = 0 →
      popTrailingBreak (pureElems i cards) = specLayout cards := by
  intro cards
  induction cards using specLayout.induct with
  | case1 => intro i _; rfl
  | case2 c1 =>
    intro i hi
    have e1 : ((i + 1) % 3 == 0) = false := by
      have h1 : (i + 1) % 3 ≠ 0 := by omega
      simpa using h1
    simp only [pureElems_cons, e1, if_false]
    rfl
  | case3 c1 c2 =>
    intro i hi
    have e1 : ((i + 1) % 3 == 0) = false := by
      have h1 : (i + 1) % 3 ≠ 0 := by omega
      simpa using h1
    have e2 : ((i + 1 + 1) % 3 == 0) = false := by
      have h1 : (i + 1 + 1) % 3 ≠ 0 := by omega
      simpa using h1
    simp only [pureElems_cons, e1, e2, if_false]
    rfl
  | case4 c1 c2 c3 =>
    intro i hi
    have e1 : ((i + 1) % 3 == 0) = false := by
      have h1 : (i + 1) % 3 ≠ 0 := by omega
      simpa using h1
    have e2 : ((i + 1 + 1) % 3 == 0) = false := by
      have h1 : (i + 1 + 1) % 3 ≠ 0 := by omega
      simpa using h1
    have e3 : ((i + 1 + 1 + 1) % 3 == 0) = true := by
      have h1 : (i + 1 + 1 + 1) % 3 = 0 := by omega
      simpa using h1
    simp only [pureElems_cons, e1, e2, e3, if_false, if_true]
    rfl
  | case5 c1 c2 c3 x hx ih =>
    intro i hi
    obtain ⟨x0, xs0, rfl⟩ : ∃ y ys, x = y :: ys := by
      cases x with
      | nil => exact absurd rfl (fun h => hx h)
      | cons y ys => exact ⟨y, ys, rfl⟩
    have e1 : ((i + 1) % 3 == 0) = false := by
      have h1 : (i + 1) % 3 ≠ 0 := by omega
      simpa using h1
    have e2 : ((i + 1 + 1) % 3 == 0) = false := by
      have h1 : (i + 1 + 1) % 3 ≠ 0 := by omega
      simpa using h1
    have e3 : ((i + 1 + 1 + 1) % 3 == 0) = true := by
      have h1 : (i + 1 + 1 + 1) % 3 = 0 := by omega
      simpa using h1
    simp only [pureElems_cons, e1, e2, e3, if_false, if_true]
    show popTrailingBreak
        ([LayoutElement.card c1, LayoutElement.card c2, LayoutElement.card c3,
          LayoutElement.pageBreak] ++ pureElems (i + 1 + 1 + 1) (x0 :: xs0)) = _
    rw [popTrailingBreak_append _ (pureElems_ne_nil _ _ _),
      ih (i + 1 + 1 + 1) (by omega), specLayout_cons3]
    rfl

theorem countBreaks_specLayout : ∀ cards : List ComposedCard,
    countBreaks (specLayout cards) = (cards.length - 1) / 3 := by
  intro cards
  induction cards using specLayout.induct with
  | case1 => rfl
  | case2 c1 =>
    rw [show specLayout [c1] = [LayoutElement.card c1] from rfl,
      countBreaks_cons_card, countBreaks_nil]
    simp
  | case3 c1 c2 =>
    rw [show specLayout [c1, c2] = [LayoutElement.card c1, LayoutElement.card c2] from rfl,
      countBreaks_cons_card, countBreaks_cons_card, countBreaks_nil]
    simp
  | case4 c1 c2 c3 =>
    rw [show specLayout [c1, c2, c3] =
        [LayoutElement.card c1, LayoutElement.card c2, LayoutElement.card c3] from rfl,
      countBreaks_cons_card, countBreaks_cons_card, countBreaks_cons_card, countBreaks_nil]
    simp
  | case5 c1 c2 c3 x hx ih =>
    obtain ⟨x0, xs0, rfl⟩ : ∃ y ys, x = y :: ys := by
      cases x with
      | nil => exact absurd rfl (fun h => hx h)
      | cons y ys => exact ⟨y, ys, rfl⟩
    rw [specLayout_cons3, countBreaks_cons_card, countBreaks_cons_card,
      countBreaks_cons_card, countBreaks_cons_break, ih]
    simp only [List.length_cons]
    omega

theorem specLayout_getLast_ne_break : ∀ (cards : List ComposedCard) (e : LayoutElement),
    (specLayout cards).getLast? = some e → e ≠ LayoutElement.pageBreak := by
  intro cards
  induction cards using specLayout.induct with
  | case1 => intro e he; simp [specLayout] at he
  | case2 c1 =>
    intro e he
    simp [specLayout, List.getLast?] at he
    subst he
    simp
  | case3 c1 c2 =>
    intro e he
    simp [specLayout, List.getLast?] at he
    subst he
    simp
  | case4 c1 c2 c3 =>
    intro e he
    simp [specLayout, List.getLast?] at he
    subst he
    simp
  | case5 c1 c2 c3 x hx ih =>
    intro e he
    obtain ⟨x0, xs0, rfl⟩ : ∃ y ys, x = y :: ys := by
      cases x with
      | nil => exact absurd rfl (fun h => hx h)
      | cons y ys => exact ⟨y, ys, rfl⟩
    rw [specLayout_cons3] at he
    rw [show (LayoutElement.card c1 :: LayoutElement.card c2 :: LayoutElement.card c3 ::
        LayoutElement.pageBreak :: specLayout (x0 :: xs0)) =
      ([LayoutElement.card c1, LayoutElement.card c2, LayoutElement.card c3,
        LayoutElement.pageBreak] ++ specLayout (x0 :: xs0)) from rfl] at he
    rw [List.getLast?_append_of_ne_nil _ (specLayout_ne_nil x0 xs0)] at he
    exact ih e he

theorem length_filterMap_all_ok :
    ∀ (files : List (String × Except String CardRecord)),
      (∀ p ∈ files, ∃ c, p.2.bind create_card_content = Except.ok c) →
      (files.filterMap (fun p => (p.2.bind create_card_content).toOption)).length =
        files.length := by
  intro files
  induction files with
  | nil => intro _; rfl
  | cons p rest ih =>
    intro hall
    obtain ⟨c, hc⟩ := hall p (List.mem_cons_self _ _)
    rw [List.filterMap_cons]
    rw [hc, show (Except.ok c : Except String ComposedCard).toOption = some c from rfl]
    dsimp only
    rw [List.length_cons, List.length_cons,
      ih (fun q hq => hall q (List.mem_cons_of_mem _ hq))]

/-- C3: when every record parses (and hence composes) successfully, the
element stream handed to the renderer is exactly the composed cards in
groups of three with one page-break marker between consecutive groups —
a break after every 3rd card — the number of breaks is
`(L - 1) / 3` (0 when `L = 0`), and no break follows the final card even
when `L` is an exact multiple of 3. -/
theorem C3_page_breaks (files : List (String × Except String CardRecord))
    (hok : ∀ p ∈ files, ∃ r, p.2 = Except.ok r) :
    (make_avery5388_elements files).1 =
      specLayout (files.filterMap (fun p => (p.2.bind create_card_content).toOption)) ∧
    countBreaks (make_avery5388_elements files).1 = (files.length - 1) / 3 ∧
    ∀ e, (make_avery5388_elements files).1.getLast? = some e →
      e ≠ LayoutElement.pageBreak := by
  have hall : ∀ p ∈ files, ∃ c, p.2.bind create_card_content = Except.ok c := by
    intro p hp
    obtain ⟨r, hr⟩ := hok p hp
    obtain ⟨c, hc⟩ := create_card_content_ok r
    refine ⟨c, ?_⟩
    rw [hr]
    simpa [Except.bind] using hc
  have hmain : (make_avery5388_elements files).1 =
      specLayout (files.filterMap (fun p => (p.2.bind create_card_content).toOption)) := by
    show popTrailingBreak (buildElements 0 files).1 = _
    rw [buildElements_all_ok files 0 hall]
    exact popTrailingBreak_pureElems _ 0 rfl
  refine ⟨hmain, ?_, ?_⟩
  · rw [hmain, countBreaks_specLayout, length_filterMap_all_ok files hall]
  · intro e he
    rw [hmain] at he
    exact specLayout_getLast_ne_break _ e he

/-- C3 witness: seven successfully parsed records (the spec's scenario)
give the grouped layout with two page breaks and none after card 7. -/
theorem C3_witness :
    (∀ p ∈ sampleFiles, ∃ r, p.2 = Except.ok r) ∧
    ((make_avery5388_elements sampleFiles).1 =
        specLayout (sampleFiles.filterMap
          (fun p => (p.2.bind create_card_content).toOption)) ∧
      countBreaks (make_avery5388_elements sampleFiles).1 = (sampleFiles.length - 1) / 3 ∧
      ∀ e, (make_avery5388_elements sampleFiles).1.getLast? = some e →
        e ≠ LayoutElement.pageBreak) :=
  ⟨fun p hp => by
      rw [List.eq_of_mem_replicate hp]
      exact ⟨sampleRecord, rfl⟩,
    C3_page_breaks sampleFiles (fun p hp => by
      rw [List.eq_of_mem_replicate hp]
      exact ⟨sampleRecord, rfl⟩)⟩

/-! ### C5: behaviour of `wrap` on a single long whitespace-free word -/

theorem wrapGo_nil (f k : ℕ) (b : Bool) : wrapGo f k b [] = [] := by
  cases f <;> rfl

theorem isWsChunk_false_of (w : List Char) (hw : w ≠ [])
    (h : w.all (fun c => !isPyWsChar c) = true) : isWsChunk w = false := by
  cases w with
  | nil => exact absurd rfl hw
  | cons c cs =>
    rw [List.all_cons, Bool.and_eq_true] at h
    have hc : isPyWsChar c = false := by
      have h1 := h.1
      rwa [Bool.not_eq_true'] at h1
    simp [isWsChunk, List.all_cons, hc]

theorem all_take_of_all (w : List Char) (p : Char → Bool)
    (h : w.all p = true) (n : ℕ) : (w.take n).all p = true := by
  rw [List.all_eq_true] at h ⊢
  exact fun c hc => h c (List.mem_of_mem_take hc)

theorem all_drop_of_all (w : List Char) (p : Char → Bool)
    (h : w.all p = true) (n : ℕ) : (w.drop n).all p = true := by
  rw [List.all_eq_true] at h ⊢
  exact fun c hc => h c (List.mem_of_mem_drop hc)

theorem expandtabs_id : ∀ (w : List Char),
    w.all (fun c => !isPyWsChar c) = true → ∀ col, expandtabsGo w col = w := by
  intro w
  induction w with
  | nil => intro _ _; rfl
  | cons c cs ih =>
    intro hnws col
    rw [List.all_cons, Bool.and_eq_true] at hnws
    have hc : isPyWsChar c = false := by
      have h1 := hnws.1
      rwa [Bool.not_eq_true'] at h1
    have h1 : ¬ c = '\t' := by
      intro h
      rw [h] at hc
      exact absurd hc (by decide)
    have h2 : ¬ (c = '\n' ∨ c = '\r') := by
      rintro (h | h) <;> (rw [h] at hc; exact absurd hc (by decide))
    show expandtabsGo (c :: cs) col = c :: cs
    simp only [expandtabsGo]
    rw [if_neg h1, if_neg h2, ih hnws.2 (col + 1)]

theorem munge_id (w : List Char)
    (hnws : w.all (fun c => !isPyWsChar c) = true) : munge w = w := by
  rw [munge, expandtabs_id w hnws 0]
  have hmap : ∀ c ∈ w,
      (if c = '\t' ∨ c = '\n' ∨ c = '\x0b' ∨ c = '\x0c' ∨ c = '\r' then ' ' else c) = c := by
    intro c hcmem
    have hc : isPyWsChar c = false := by
      rw [List.all_eq_true] at hnws
      have h1 := hnws c hcmem
      rwa [Bool.not_eq_true'] at h1
    rw [if_neg]
    rintro (h | h | h | h | h) <;> (rw [h] at hc; exact absurd hc (by decide))
  exact (List.map_congr_left hmap).trans (List.map_id w)

theorem pySplitGo_nil (f : ℕ) (ctx : List Char) : pySplitGo f ctx [] = [] := by
  cases f <;> rfl

theorem emDashAhead_not_hyphen (c : Char) (rem : List Char) (hc : ¬ c = '-') :
    emDashAhead (c :: rem) = false := by
  have h0 : hyphenRun (c :: rem) = 0 := by
    simp [hyphenRun, hc]
  simp [emDashAhead, h0]

theorem wordGrow_succ (f : ℕ) (coreRev ctxRev : List Char) (c : Char)
    (rem1 : List Char) :
    wordGrow (f + 1) coreRev ctxRev (c :: rem1) =
      (if isPyWsChar c then (coreRev.reverse, c :: rem1)
       else if c == '-' && hyphBehind ('-' :: ctxRev) && hyphLookahead rem1 then
         (coreRev.reverse ++ ['-'], rem1)
       else if (match ctxRev with
                | p :: _ => wpChar p
                | [] => false) && emDashAhead (c :: rem1) then
         (coreRev.reverse, c :: rem1)
       else wordGrow f (c :: coreRev) (c :: ctxRev) rem1) := rfl

theorem wordGrow_all : ∀ (fuel : ℕ) (coreRev ctxRev rem : List Char),
    rem.all (fun c => !isPyWsChar c) = true →
    rem.all (fun c => c != '-') = true → rem.length < fuel →
    wordGrow fuel coreRev ctxRev rem = (coreRev.reverse ++ rem, []) := by
  intro fuel
  induction fuel with
  | zero => intro _ _ rem _ _ hf; omega
  | succ f ih =>
    intro coreRev ctxRev rem hnws hnh hf
    cases rem with
    | nil => simp [wordGrow]
    | cons c rem1 =>
      rw [List.all_cons, Bool.and_eq_true] at hnws hnh
      have hcw : isPyWsChar c = false := by
        have h1 := hnws.1
        rwa [Bool.not_eq_true'] at h1
      have hch : ¬ c = '-' := by
        intro he
        have h1 := hnh.1
        rw [he] at h1
        exact absurd h1 (by decide)
      have hcb : (c == '-') = false := by
        simpa using hch
      rw [wordGrow_succ, if_neg (by simp [hcw]),
        if_neg (by simp [hcb]),
        if_neg (by simp [emDashAhead_not_hyphen c rem1 hch]),
        ih (c :: coreRev) (c :: ctxRev) rem1 hnws.2 hnh.2
          (by simp only [List.length_cons] at hf; omega)]
      simp

theorem pySplitGo_succ (f : ℕ) (ctxRev : List Char) (c : Char) (rest : List Char) :
    pySplitGo (f + 1) ctxRev (c :: rest) =
      (if isPyWsChar c then
        ((c :: rest).takeWhile isPyWsChar) ::
          pySplitGo f (((c :: rest).takeWhile isPyWsChar).reverse ++ ctxRev)
            ((c :: rest).dropWhile isPyWsChar)
      else if c == '-' &&
          (match ctxRev with
           | p :: _ => wpChar p
           | [] => false) && emDashAhead (c :: rest) then
        ((c :: rest).take (hyphenRun (c :: rest))) ::
          pySplitGo f (((c :: rest).take (hyphenRun (c :: rest))).reverse ++ ctxRev)
            ((c :: rest).drop (hyphenRun (c :: rest)))
      else
        (wordGrow (rest.length + 1) [c] (c :: ctxRev) rest).1 ::
          pySplitGo f ((wordGrow (rest.length + 1) [c] (c :: ctxRev) rest).1.reverse ++ ctxRev)
            (wordGrow (rest.length + 1) [c] (c :: ctxRev) rest).2) := rfl

theorem splitChunks_single (w : List Char) (hw : w ≠ [])
    (hnws : w.all (fun c => !isPyWsChar c) = true)
    (hnh : w.all (fun c => c != '-') = true) : splitChunks w = [w] := by
  cases w with
  | nil => exact absurd rfl hw
  | cons c rest =>
    rw [List.all_cons, Bool.and_eq_true] at hnws hnh
    have hcw : isPyWsChar c = false := by
      have h1 := hnws.1
      rwa [Bool.not_eq_true'] at h1
    have hcb : (c == '-') = false := by
      simpa using hnh.1
    have hgrow : wordGrow (rest.length + 1) [c] (c :: []) rest = ([c].reverse ++ rest, []) :=
      wordGrow_all (rest.length + 1) [c] (c :: []) rest hnws.2 hnh.2 (by omega)
    show pySplitGo ((c :: rest).length + 1) [] (c :: rest) = [c :: rest]
    rw [show (c :: rest).length + 1 = rest.length + 1 + 1 from rfl, pySplitGo_succ,
      if_neg (by simp [hcw]), if_neg (by simp [hcb]), hgrow]
    simp [pySplitGo_nil]

theorem wrapGo_succ (f k : ℕ) (b : Bool) (c : Chunk) (cs : List Chunk) :
    wrapGo (f + 1) k b (c :: cs) =
      (let work := if b && isWsChunk c then cs else c :: cs
       let ps := greedySplit k 0 work
       let curLen := (ps.1.map List.length).sum
       let step : List Chunk × List Chunk :=
         match ps.2 with
         | r :: rs =>
           if k < r.length then
             let spaceLeft := if k < 1 then 1 else k - curLen
             let e := breakEnd r spaceLeft
             (ps.1 ++ [r.take e], (r.drop e) :: rs)
           else (ps.1, r :: rs)
         | [] => (ps.1, [])
       let cur := dropTrailingWsChunk step.1
       if cur.isEmpty then wrapGo f k b step.2
       else cur.flatten :: wrapGo f k true step.2) := rfl

theorem wrapGo_single_fit (f k : ℕ) (b : Bool) (w : Chunk)
    (hws : isWsChunk w = false) (hlk : w.length ≤ k) :
    wrapGo (f + 1) k b [w] = [w] := by
  rw [wrapGo_succ]
  simp [greedySplit, dropTrailingWsChunk, hws, hlk, wrapGo_nil]

theorem rfindHyphenGo_none : ∀ (l : List Char) (i : ℕ),
    l.all (fun c => c != '-') = true → rfindHyphenGo l i none = none := by
  intro l
  induction l with
  | nil => intro _ _; rfl
  | cons c rest ih =>
    intro i h
    rw [List.all_cons, Bool.and_eq_true] at h
    have hc : ¬ c = '-' := by
      intro he
      have h1 := h.1
      rw [he] at h1
      exact absurd h1 (by decide)
    show rfindHyphenGo rest (i + 1) (if c = '-' then some i else none) = none
    rw [if_neg hc]
    exact ih (i + 1) h.2

theorem breakEnd_no_hyphen (w : List Char) (k : ℕ)
    (hnh : w.all (fun c => c != '-') = true) : breakEnd w k = k := by
  have hfind : rfindHyphen w k = none :=
    rfindHyphenGo_none (w.take k) 0 (all_take_of_all w _ hnh k)
  by_cases h : k < w.length
  · simp [breakEnd, h, hfind]
  · simp [breakEnd, h]

theorem wrapGo_single_split (f k : ℕ) (b : Bool) (w : Chunk)
    (hws : isWsChunk w = false) (htk : isWsChunk (w.take k) = false)
    (hbe : breakEnd w k = k)
    (hk : 1 ≤ k) (hlk : k < w.length) :
    wrapGo (f + 1) k b [w] = w.take k :: wrapGo f k true [w.drop k] := by
  rw [wrapGo_succ]
  have h1 : ¬ w.length ≤ k := by omega
  have h2 : ¬ k < 1 := by omega
  simp [greedySplit, dropTrailingWsChunk, hws, h1, h2, hlk, htk, hbe]

theorem chunkEvery_succ (k g : ℕ) (c : Char) (cs : List Char) :
    chunkEvery k (g + 1) (c :: cs) =
      if (c :: cs).length ≤ k then [c :: cs]
      else (c :: cs).take k :: chunkEvery k g ((c :: cs).drop k) := rfl

theorem chunkEvery_fuel (k : ℕ) (hk : 1 ≤ k) :
    ∀ f1 f2 w, w.length ≤ f1 → w.length ≤ f2 →
      chunkEvery k f1 w = chunkEvery k f2 w := by
  intro f1
  induction f1 with
  | zero =>
    intro f2 w h1 _
    have hw : w = [] := List.length_eq_zero.mp (Nat.le_zero.mp h1)
    subst hw
    cases f2 <;> rfl
  | succ g ih =>
    intro f2 w h1 h2
    cases w with
    | nil => cases f2 <;> rfl
    | cons c cs =>
      obtain ⟨g2, rfl⟩ : ∃ g2, f2 = g2 + 1 := by
        refine ⟨f2 - 1, ?_⟩
        simp only [List.length_cons] at h2
        omega
      have hlc : (c :: cs).length = cs.length + 1 := rfl
      rw [chunkEvery_succ, chunkEvery_succ]
      by_cases hlk : (c :: cs).length ≤ k
      · rw [if_pos hlk, if_pos hlk]
      · rw [if_neg hlk, if_neg hlk]
        congr 1
        refine ih g2 ((c :: cs).drop k) ?_ ?_ <;> (rw [List.length_drop]; omega)

theorem chunkEvery_flatten (k : ℕ) (hk : 1 ≤ k) :
    ∀ f w, w.length ≤ f → (chunkEvery k f w).flatten = w := by
  intro f
  induction f with
  | zero =>
    intro w h1
    have hw : w = [] := List.length_eq_zero.mp (Nat.le_zero.mp h1)
    subst hw
    rfl
  | succ g ih =>
    intro w h1
    cases w with
    | nil => rfl
    | cons c cs =>
      have hlc : (c :: cs).length = cs.length + 1 := rfl
      rw [chunkEvery_succ]
      by_cases hlk : (c :: cs).length ≤ k
      · rw [if_pos hlk]
        simp
      · rw [if_neg hlk, List.flatten_cons,
          ih ((c :: cs).drop k) (by rw [List.length_drop]; omega)]
        exact List.take_append_drop k (c :: cs)

theorem chunkEvery_piece_le (k : ℕ) :
    ∀ f w, ∀ piece ∈ chunkEvery k f w, piece.length ≤ k := by
  intro f
  induction f with
  | zero => intro w piece hp; simp [chunkEvery] at hp
  | succ g ih =>
    intro w piece hp
    cases w with
    | nil => simp [chunkEvery] at hp
    | cons c cs =>
      rw [chunkEvery_succ] at hp
      by_cases hlk : (c :: cs).length ≤ k
      · rw [if_pos hlk] at hp
        rw [List.mem_singleton] at hp
        rw [hp]
        exact hlk
      · rw [if_neg hlk] at hp
        rcases List.mem_cons.mp hp with hp | hp
        · rw [hp, List.length_take]
          omega
        · exact ih _ piece hp

theorem chunkEvery_ne_nil (k : ℕ) :
    ∀ f w, w ≠ [] → w.length ≤ f → chunkEvery k f w ≠ [] := by
  intro f
  induction f with
  | zero =>
    intro w hw h1
    exact absurd (List.length_eq_zero.mp (Nat.le_zero.mp h1)) hw
  | succ g _ =>
    intro w hw _
    cases w with
    | nil => exact absurd rfl hw
    | cons c cs =>
      rw [chunkEvery_succ]
      by_cases hlk : (c :: cs).length ≤ k
      · rw [if_pos hlk]
        simp
      · rw [if_neg hlk]
        simp

theorem chunkEvery_two (k : ℕ) (hk : 1 ≤ k) :
    ∀ f w, k < w.length → w.length ≤ f → 2 ≤ (chunkEvery k f w).length := by
  intro f
  induction f with
  | zero => intro w hlk h1; omega
  | succ g _ =>
    intro w hlk h1
    cases w with
    | nil => simp at hlk
    | cons c cs =>
      have hlc : (c :: cs).length = cs.length + 1 := rfl
      have hnle : ¬ (c :: cs).length ≤ k := by omega
      rw [chunkEvery_succ, if_neg hnle, List.length_cons]
      have hne : chunkEvery k g ((c :: cs).drop k) ≠ [] := by
        refine chunkEvery_ne_nil k g _ ?_ ?_
        · intro h
          have h2 := congrArg List.length h
          rw [List.length_drop, List.length_nil] at h2
          omega
        · rw [List.length_drop]
          omega
      have := List.length_pos.mpr hne
      omega

theorem wrapGo_single (fuel : ℕ) : ∀ (k : ℕ) (b : Bool) (w : List Char),
    w ≠ [] → w.all (fun c => !isPyWsChar c) = true →
    w.all (fun c => c != '-') = true → 1 ≤ k → w.length ≤ fuel →
    wrapGo (fuel + 1) k b [w] = chunkEvery k w.length w := by
  induction fuel with
  | zero =>
    intro k b w hw _ _ _ hf
    exact absurd (List.length_eq_zero.mp (Nat.le_zero.mp hf)) hw
  | succ f ih =>
    intro k b w hw hnws hnh hk hf
    have hws : isWsChunk w = false := isWsChunk_false_of w hw hnws
    have hlenpos : 0 < w.length := List.length_pos.mpr hw
    by_cases hlk : w.length ≤ k
    · rw [wrapGo_single_fit (f + 1) k b w hws hlk]
      cases w with
      | nil => exact absurd rfl hw
      | cons c cs =>
        rw [show (c :: cs).length = cs.length + 1 from rfl, chunkEvery_succ,
          if_pos hlk]
    · push_neg at hlk
      have htk_ne : w.take k ≠ [] := by
        intro h
        have := congrArg List.length h
        simp only [List.length_take, List.length_nil] at this
        omega
      have htk : isWsChunk (w.take k) = false :=
        isWsChunk_false_of _ htk_ne (all_take_of_all w _ hnws k)
      rw [wrapGo_single_split (f + 1) k b w hws htk
        (breakEnd_no_hyphen w k hnh) hk hlk]
      have hdrop_ne : w.drop k ≠ [] := by
        intro h
        have := congrArg List.length h
        simp only [List.length_drop, List.length_nil] at this
        omega
      have hdrop_len : (w.drop k).length ≤ f := by
        simp only [List.length_drop]
        omega
      rw [ih k true (w.drop k) hdrop_ne (all_drop_of_all w _ hnws k)
        (all_drop_of_all w _ hnh k) hk hdrop_len]
      cases w with
      | nil => exact absurd rfl hw
      | cons c cs =>
        have hlc : (c :: cs).length = cs.length + 1 := rfl
        have hnle : ¬ (c :: cs).length ≤ k := by omega
        rw [show (c :: cs).length = cs.length + 1 from rfl, chunkEvery_succ,
          if_neg hnle]
        congr 1
        refine chunkEvery_fuel k hk _ _ _ (le_refl _) ?_
        rw [List.length_drop]
        omega

theorem wrap_single_word (w : List Char) (k : ℤ)
    (hw : w ≠ []) (hnws : w.all (fun c => !isPyWsChar c) = true)
    (hnh : w.all (fun c => c != '-') = true) (hk : 1 ≤ k) :
    wrap w k = Except.ok (chunkEvery k.toNat w.length w) := by
  rw [wrap, if_neg (by omega)]
  show Except.ok
      (wrapGo (chunkMeasure (splitChunks (munge w)) + 1) k.toNat false
        (splitChunks (munge w))) = _
  rw [munge_id w hnws, splitChunks_single w hw hnws hnh]
  have hmeas : chunkMeasure [w] = w.length + 1 := by
    simp [chunkMeasure]
  rw [hmeas]
  congr 1
  exact wrapGo_single (w.length + 1) k.toNat false w hw hnws hnh
    (by omega) (by omega)

/-- C5 counterexample: with `textwrap`'s default `break_long_words=True`,
the single whitespace-free word `"aaaa"` at a character budget of 2 is
split character-level into `["aa", "aa"]`; it is *not* emitted as the
single line `["aaaa"]` the claim asserts. -/
theorem C5_counterexample :
    wrap "aaaa".data 2 = Except.ok [['a', 'a'], ['a', 'a']] ∧
    (Except.ok [['a', 'a'], ['a', 'a']] : Except String (List Chunk)) ≠
      Except.ok ["aaaa".data] := by
  decide

/-- C5 (amended): `textwrap.wrap` is called with its defaults
`break_long_words=True` and `break_on_hyphens=True`.  A single
whitespace-free, hyphen-free word longer than the per-line character
budget `k ≥ 1` *is* split at the character level: the output is the word
cut into consecutive pieces of at most `k` characters (each full piece
exactly `k`), at least two lines long, whose concatenation restores the
word — it is never emitted as one overlong line.  (A word *containing*
hyphens is instead split at its compound-word hyphens by
`break_on_hyphens`, so the exact-`k` characterization is stated for
hyphen-free words.) -/
theorem C5_long_word_split (w : List Char) (k : ℤ)
    (hw : w ≠ []) (hnws : w.all (fun c => !isPyWsChar c) = true)
    (hnh : w.all (fun c => c != '-') = true)
    (hk : 1 ≤ k) (hlen : k.toNat < w.length) :
    wrap w k = Except.ok (chunkEvery k.toNat w.length w) ∧
    2 ≤ (chunkEvery k.toNat w.length w).length ∧
    (∀ piece ∈ chunkEvery k.toNat w.length w, piece.length ≤ k.toNat) ∧
    (chunkEvery k.toNat w.length w).flatten = w := by
  refine ⟨wrap_single_word w k hw hnws hnh hk, ?_, ?_, ?_⟩
  · exact chunkEvery_two k.toNat (by omega) w.length w hlen (le_refl _)
  · exact chunkEvery_piece_le k.toNat w.length w
  · exact chunkEvery_flatten k.toNat (by omega) w.length w (le_refl _)

/-- Witness for C5 at the concrete word `"aaaa"` and budget 2. -/
theorem C5_witness :
    ("aaaa".data ≠ [] ∧ "aaaa".data.all (fun c => !isPyWsChar c) = true ∧
      "aaaa".data.all (fun c => c != '-') = true ∧
      (1 : ℤ) ≤ 2 ∧ (2 : ℤ).toNat < "aaaa".data.length) ∧
    (wrap "aaaa".data 2 = Except.ok (chunkEvery (2 : ℤ).toNat "aaaa".data.length "aaaa".data) ∧
      2 ≤ (chunkEvery (2 : ℤ).toNat "aaaa".data.length "aaaa".data).length ∧
      (∀ piece ∈ chunkEvery (2 : ℤ).toNat "aaaa".data.length "aaaa".data,
        piece.length ≤ (2 : ℤ).toNat) ∧
      (chunkEvery (2 : ℤ).toNat "aaaa".data.length "aaaa".data).flatten = "aaaa".data) :=
  ⟨⟨by decide, by decide, by decide, by decide, by decide⟩,
    C5_long_word_split "aaaa".data 2 (by decide) (by decide) (by decide) (by decide)
      (by decide)⟩
